import Mathlib

/-!
Verification of the backgammon rules engine (src/engine of the repository).

The engine is embedded shallowly: the TypeScript functions of
src/engine/types.ts, src/engine/board.ts, src/engine/moves.ts,
src/engine/game.ts and the match module of src/engine/index.ts are
translated into executable Lean definitions.  JavaScript in-place array
mutation becomes pure state passing; functions that throw become
`Except String`; the ambient random dice source becomes explicit oracle
parameters (the caller supplies the values the source would have rolled,
and re-roll loops are modelled by requiring the oracle to supply the final
accepted roll, rejecting the re-rolled shapes).  Checker counts are
embedded as `Int`, matching JavaScript number arithmetic on decrements.
Board slots are a 26 element list, index 0 the white bar, 1 to 24 the
points, 25 the black bar, exactly as in the source.
-/

namespace BG

inductive Player where
  | white
  | black
deriving DecidableEq, Repr

/-- Source: getOpponent in board.ts. -/
def getOpponent : Player → Player
  | .white => .black
  | .black => .white

/-- Source: CheckerStack in types.ts; the count is a JavaScript number,
embedded as `Int`. -/
structure CheckerStack where
  player : Player
  count : Int
deriving DecidableEq, Repr

/-- Source: BoardState in types.ts, an array of 26 nullable stacks. -/
abbrev BoardState := List (Option CheckerStack)

/-- Read slot `i` of the board; out of range reads give `none`, as a
JavaScript out of range index gives undefined. -/
def bgetI (b : BoardState) (i : Int) : Option CheckerStack :=
  if 0 ≤ i then b.getD i.toNat none else none

/-- Write slot `i` of the board; out of range writes leave the board
unchanged (the engine never writes out of range: every write site is
guarded by a successful read or an explicit 1..24 range check). -/
def bsetI (b : BoardState) (i : Int) (v : Option CheckerStack) : BoardState :=
  if 0 ≤ i then b.set i.toNat v else b

/-- Source: Dice in types.ts. -/
structure Dice where
  die1 : Nat
  die2 : Nat
deriving DecidableEq, Repr

/-- Source: getDiceValues in types.ts. -/
def getDiceValues (dice : Dice) : List Nat :=
  if dice.die1 = dice.die2 then [dice.die1, dice.die1, dice.die1, dice.die1]
  else [dice.die1, dice.die2]

/-- Source: Move in types.ts.  The field names `from` and `to` are Lean
keywords, so they are embedded as `fromP` and `toP`.  The optional `hit`
field becomes a `Bool` (absent = false). -/
structure Move where
  fromP : Int
  toP : Int
  die : Nat
  hit : Bool
deriving DecidableEq, Repr

inductive GamePhase where
  | setup
  | rolling
  | moving
  | gameOver
deriving DecidableEq, Repr

inductive GameVariant where
  | standard
  | asymmetric
deriving DecidableEq, Repr

inductive AsymmetricRole where
  | foresight
  | doubling
deriving DecidableEq, Repr

/-- Source: AsymmetricRoles in types.ts. -/
structure AsymmetricRoles where
  white : AsymmetricRole
  black : AsymmetricRole
deriving DecidableEq, Repr

/-- Source: AsymmetricRolesConfig in types.ts, a union of the per player
role map and the legacy foresightPlayer/doublingPlayer pair. -/
inductive AsymmetricRolesConfig where
  | perPlayer (roles : AsymmetricRoles)
  | legacy (foresightPlayer doublingPlayer : Player)
deriving DecidableEq, Repr

/-- Source: normalizeAsymmetricRoles in types.ts. -/
def normalizeAsymmetricRoles : Option AsymmetricRolesConfig → Option AsymmetricRoles
  | none => none
  | some (.perPlayer roles) => some roles
  | some (.legacy fp dp) =>
    let whiteRole : Option AsymmetricRole :=
      if fp = .white then some .foresight
      else if dp = .white then some .doubling
      else none
    let blackRole : Option AsymmetricRole :=
      if fp = .black then some .foresight
      else if dp = .black then some .doubling
      else none
    match whiteRole, blackRole with
    | some w, some b => some ⟨w, b⟩
    | _, _ => none

/-- Source: getAsymmetricRoleForPlayer in types.ts. -/
def getAsymmetricRoleForPlayer (roles : AsymmetricRoles) (p : Player) : AsymmetricRole :=
  match p with
  | .white => roles.white
  | .black => roles.black

/-- Source: playerHasAsymmetricRole in types.ts. -/
def playerHasAsymmetricRole (roles : AsymmetricRoles) (p : Player) (role : AsymmetricRole) : Prop :=
  getAsymmetricRoleForPlayer roles p = role

instance (roles : AsymmetricRoles) (p : Player) (role : AsymmetricRole) :
    Decidable (playerHasAsymmetricRole roles p role) := by
  unfold playerHasAsymmetricRole; infer_instance

/-- Source: getSingleAsymmetricRolePlayer in types.ts. -/
def getSingleAsymmetricRolePlayer (roles : AsymmetricRoles) (role : AsymmetricRole) : Option Player :=
  let whiteHasRole := roles.white = role
  let blackHasRole := roles.black = role
  if whiteHasRole = blackHasRole then none
  else if whiteHasRole then some .white else some .black

/-- Source: isValidAsymmetricRoles in types.ts; the only invalid
combination is doubling against doubling. -/
def isValidAsymmetricRoles (roles : AsymmetricRoles) : Prop :=
  roles.white = .foresight ∨ roles.black = .foresight

instance (roles : AsymmetricRoles) : Decidable (isValidAsymmetricRoles roles) := by
  unfold isValidAsymmetricRoles; infer_instance

/-- Source: randomAsymmetricRoles in types.ts picks one of two options at
random; the random choice is an explicit oracle parameter. -/
def randomAsymmetricRoles (pick : Bool) : AsymmetricRoles :=
  if pick then ⟨.foresight, .doubling⟩ else ⟨.doubling, .foresight⟩

/-- Source: DoublingCube in types.ts. -/
structure DoublingCube where
  value : Nat
  owner : Option Player
deriving DecidableEq, Repr

inductive WinType where
  | normal
  | gammon
  | backgammon
deriving DecidableEq, Repr

/-- Source: Turn in types.ts.  The dice field is stored through a
non-null assertion in the source; the embedding keeps the option. -/
structure Turn where
  player : Player
  dice : Option Dice
  moves : List Move
deriving DecidableEq, Repr

/-- Source: GameState in types.ts. -/
structure GameState where
  variant : GameVariant
  board : BoardState
  currentPlayer : Player
  phase : GamePhase
  whiteDice : Option Dice
  blackDice : Option Dice
  unusedDice : List Nat
  doublingCube : DoublingCube
  stakes : Nat
  doubleOfferedThisTurn : Bool
  asymmetricRoles : Option AsymmetricRoles
  whiteOff : Int
  blackOff : Int
  moveHistory : List Turn
  winner : Option Player
  winType : Option WinType
  pointsAwarded : Option Nat
deriving DecidableEq, Repr

/-- Source: MoveResult in types.ts. -/
structure MoveResult where
  valid : Bool
  error : Option String
  newState : Option GameState
deriving DecidableEq, Repr

/-- Source: GameConfig in types.ts (the player callback fields are
behavioural hooks outside the engine core and are not part of state). -/
structure GameConfig where
  variant : GameVariant
  asymmetricRoles : Option AsymmetricRolesConfig
deriving DecidableEq, Repr

/-- Source: createInitialBoard in board.ts, slot by slot. -/
def createInitialBoard : BoardState :=
  [ none,                              -- 0: white bar
    some ⟨.black, 2⟩,                  -- 1
    none, none, none, none,            -- 2..5
    some ⟨.white, 5⟩,                  -- 6
    none,                              -- 7
    some ⟨.white, 3⟩,                  -- 8
    none, none, none,                  -- 9..11
    some ⟨.black, 5⟩,                  -- 12
    some ⟨.white, 5⟩,                  -- 13
    none, none, none,                  -- 14..16
    some ⟨.black, 3⟩,                  -- 17
    none,                              -- 18
    some ⟨.black, 5⟩,                  -- 19
    none, none, none, none,            -- 20..23
    some ⟨.white, 2⟩,                  -- 24
    none ]                             -- 25: black bar

/-- Source: getBarPoint in board.ts. -/
def getBarPoint (p : Player) : Int :=
  if p = .white then 0 else 25

/-- Source: playerPointToBoardPoint in board.ts. -/
def playerPointToBoardPoint (playerPoint : Int) (p : Player) : Int :=
  if playerPoint = 0 ∨ playerPoint = 25 then playerPoint
  else if playerPoint < 1 ∨ playerPoint > 24 then playerPoint
  else if p = .white then playerPoint else 25 - playerPoint

/-- Source: boardPointToPlayerPoint in board.ts. -/
def boardPointToPlayerPoint (boardPoint : Int) (p : Player) : Int :=
  if boardPoint = 0 ∨ boardPoint = 25 then boardPoint
  else if boardPoint < 1 ∨ boardPoint > 24 then boardPoint
  else if p = .white then boardPoint else 25 - boardPoint

/-- Source: getHomeBoard in board.ts. -/
def getHomeBoard (p : Player) : Int × Int :=
  if p = .white then (1, 6) else (19, 24)

/-- Source: isInHomeBoard in board.ts. -/
def isInHomeBoard (point : Int) (p : Player) : Prop :=
  (getHomeBoard p).1 ≤ point ∧ point ≤ (getHomeBoard p).2

instance (point : Int) (p : Player) : Decidable (isInHomeBoard point p) := by
  unfold isInHomeBoard; infer_instance

/-- Source: hasCheckersOnBar in board.ts; the stack owner is not
inspected there. -/
def hasCheckersOnBar (b : BoardState) (p : Player) : Bool :=
  match bgetI b (getBarPoint p) with
  | some stack => decide (stack.count > 0)
  | none => false

/-- Source: getCheckerCount in board.ts. -/
def getCheckerCount (b : BoardState) (point : Int) (p : Player) : Int :=
  match bgetI b point with
  | some stack => if stack.player = p then stack.count else 0
  | none => 0

/-- Source: allCheckersInHomeBoard in board.ts.  The loop over points 1
to 24 skipping the home range is written as a bounded scan. -/
def allCheckersInHomeBoard (b : BoardState) (p : Player) : Bool :=
  let homeStart := (getHomeBoard p).1
  let homeEnd := (getHomeBoard p).2
  if hasCheckersOnBar b p then false
  else
    (List.range 24).all (fun k =>
      let point : Int := (k : Int) + 1
      if homeStart ≤ point ∧ point ≤ homeEnd then true
      else
        match bgetI b point with
        | some stack => !(stack.player = p ∧ stack.count > 0)
        | none => true)

/-- Source: countCheckersOnBoard in board.ts.  The loop over point
indices 0 through 25 of the 26 slot array visits each slot once, so it
is the sum of the player owned counts over the slots. -/
def countCheckersOnBoard (b : BoardState) (p : Player) : Int :=
  (b.map (fun os =>
    match os with
    | some stack => if stack.player = p then stack.count else 0
    | none => 0)).sum

/-- Source: isPointBlocked in board.ts. -/
def isPointBlocked (b : BoardState) (point : Int) (p : Player) : Bool :=
  if point < 0 ∨ point > 25 then false
  else
    match bgetI b point with
    | some stack => decide (stack.player ≠ p ∧ stack.count ≥ 2)
    | none => false

/-- Source: isBlot in board.ts. -/
def isBlot (b : BoardState) (point : Int) (p : Player) : Bool :=
  if point < 0 ∨ point > 25 then false
  else
    match bgetI b point with
    | some stack => decide (stack.player ≠ p ∧ stack.count = 1)
    | none => false

/-- Source: applyMoveToBoard in board.ts.  The in-place mutation becomes
sequential pure updates returning the success flag and the resulting
board; note that on the blocked-destination branch the source has
already removed a checker from the source stack before returning
false. -/
def applyMoveToBoard (board : BoardState) (fromPt toPt : Int) (p : Player) :
    Bool × BoardState :=
  match bgetI board fromPt with
  | none => (false, board)
  | some fromStack =>
    if fromStack.player ≠ p ∨ fromStack.count = 0 then (false, board)
    else
      -- remove checker from source
      let b1 :=
        if fromStack.count - 1 = 0 then bsetI board fromPt none
        else bsetI board fromPt (some ⟨fromStack.player, fromStack.count - 1⟩)
      -- handle hit
      match bgetI b1 toPt with
      | some toStack =>
        if toStack.player ≠ p then
          if toStack.count = 1 then
            let opponentBar := getBarPoint toStack.player
            let b2 :=
              match bgetI b1 opponentBar with
              | some barStack =>
                bsetI b1 opponentBar (some ⟨barStack.player, barStack.count + 1⟩)
              | none => bsetI b1 opponentBar (some ⟨toStack.player, 1⟩)
            let b3 := bsetI b2 toPt none
            -- add checker to destination (slot is now empty)
            (true, bsetI b3 toPt (some ⟨p, 1⟩))
          else
            -- point is blocked; the source stack has already been decremented
            (false, b1)
        else (true, bsetI b1 toPt (some ⟨toStack.player, toStack.count + 1⟩))
      | none => (true, bsetI b1 toPt (some ⟨p, 1⟩))

/-- Source: canMoveTo in moves.ts. -/
def canMoveTo (b : BoardState) (point : Int) (p : Player) : Bool :=
  if point < 1 ∨ point > 24 then false
  else !isPointBlocked b point p

/-- Source: canBearOffFromPlayerPoint in moves.ts.  The loop runs over
the player perspective points strictly above the given one up to 6; the
callers only pass points 1 to 6. -/
def canBearOffFromPlayerPoint (b : BoardState) (playerPoint : Int) (p : Player) : Bool :=
  (List.range 6).all (fun k =>
    let q : Int := (k : Int) + 1
    if playerPoint + 1 ≤ q ∧ q ≤ 6 then
      !(decide (getCheckerCount b (playerPointToBoardPoint q p) p > 0))
    else true)

/-- Source: generateMovesForDie in moves.ts.  Moves are produced in
player perspective coordinates; moves generated here carry hit = false
(the source leaves the optional field absent). -/
def generateMovesForDie (board : BoardState) (p : Player) (die : Nat) : List Move :=
  if hasCheckersOnBar board p then
    -- if on bar, must enter first
    let entryPlayerPoint : Int := 25 - (die : Int)
    let entryBoardPoint := playerPointToBoardPoint entryPlayerPoint p
    if canMoveTo board entryBoardPoint p then
      [{ fromP := if p = .white then 0 else 25, toP := entryPlayerPoint,
         die := die, hit := false }]
    else []
  else
    let canBearOff := allCheckersInHomeBoard board p
    (List.range 24).flatMap (fun k =>
      let playerPoint : Int := (k : Int) + 1
      let boardPoint := playerPointToBoardPoint playerPoint p
      if getCheckerCount board boardPoint p = 0 then []
      else
        let destPlayerPoint := playerPoint - (die : Int)
        let destBoardPoint := playerPointToBoardPoint destPlayerPoint p
        if 1 ≤ destPlayerPoint ∧ destPlayerPoint ≤ 24 then
          -- normal move
          if canMoveTo board destBoardPoint p then
            [{ fromP := playerPoint, toP := destPlayerPoint, die := die, hit := false }]
          else []
        else if canBearOff = true ∧ destPlayerPoint < 1 then
          -- bearing off
          if 1 ≤ playerPoint ∧ playerPoint ≤ 6 then
            if destPlayerPoint = 0 then
              [{ fromP := playerPoint, toP := -1, die := die, hit := false }]
            else if destPlayerPoint < 0 then
              if canBearOffFromPlayerPoint board playerPoint p then
                [{ fromP := playerPoint, toP := -1, die := die, hit := false }]
              else []
            else []
          else []
        else [])

/-- Conversion of a move source coordinate from player perspective to
the fixed board frame, as written inline in the search loop of
generateAllPossibleMoveSequences and in validateAndApplyMoves. -/
def fromBoardCoord (p : Player) (f : Int) : Int :=
  if f = 0 ∨ f = 25 then f else playerPointToBoardPoint f p

/-- Conversion of a move destination coordinate from player perspective
to the fixed board frame, as written inline in the search loop of
generateAllPossibleMoveSequences and in validateAndApplyMoves. -/
def toBoardCoord (p : Player) (t : Int) : Int :=
  if t = -1 then -1
  else if t = 0 ∨ t = 25 then t else playerPointToBoardPoint t p

/-- Body of the search loop of generateAllPossibleMoveSequences in
moves.ts: convert the candidate move to board coordinates, compute the
hit flag on the pre-move board, apply the move to a copy of the board
(bear off inline, otherwise applyMoveToBoard), and return the new board
and the recorded move when the application succeeded. -/
def tryApplyGen (p : Player) (board : BoardState) (m : Move) :
    Option (BoardState × Move) :=
  let fromBoard := fromBoardCoord p m.fromP
  let toBoard := toBoardCoord p m.toP
  let hit := (decide (1 ≤ toBoard) && decide (toBoard ≤ 24)) && isBlot board toBoard p
  if toBoard = -1 then
    -- bearing off
    match bgetI board fromBoard with
    | some fromStack =>
      if fromStack.player = p ∧ fromStack.count > 0 then
        let nb :=
          if fromStack.count - 1 = 0 then bsetI board fromBoard none
          else bsetI board fromBoard (some ⟨fromStack.player, fromStack.count - 1⟩)
        some (nb, { m with hit := hit })
      else none
    | none => none
  else
    let r := applyMoveToBoard board fromBoard toBoard p
    if r.1 then some (r.2, { m with hit := hit }) else none

/-- One level of the depth-first search of
generateAllPossibleMoveSequences: for each still-available die (by
index) and each candidate move for that die, the successful
applications, in loop order, with the consumed die removed. -/
def searchSteps (p : Player) (board : BoardState) (dice : List Nat) :
    List (BoardState × List Nat × Move) :=
  (List.range dice.length).flatMap (fun i =>
    let die := dice.getD i 0
    (generateMovesForDie board p die).filterMap (fun m =>
      (tryApplyGen p board m).map (fun r => (r.1, dice.eraseIdx i, r.2))))

/-- The recursive search of generateAllPossibleMoveSequences in
moves.ts.  Each recursive call removes one die, so the search is run
with fuel equal to the dice count; the fuel-exhausted branch is never
reached from the wrapper.  A branch records the accumulated sequence
when the dice run out or when no candidate move for any remaining die
applies, exactly as the source pushes to its sequences array. -/
def searchAux (p : Player) : Nat → BoardState → List Nat → List Move → List (List Move)
  | _, _, [], current => if current.length > 0 then [current] else []
  | 0, _, _ :: _, _ => []
  | fuel + 1, board, d :: ds, current =>
    let steps := searchSteps p board (d :: ds)
    let subtrees := steps.flatMap (fun st => searchAux p fuel st.1 st.2.1 (current ++ [st.2.2]))
    if steps.isEmpty ∧ current.length > 0 then [current] else subtrees

/-- First element die test used by the higher-die filter: the source
reads seq[0].die (every recorded sequence is non-empty). -/
def usesDie (d : Nat) : List Move → Bool
  | m :: _ => m.die == d
  | [] => false

/-- Source: generateAllPossibleMoveSequences in moves.ts: run the
search, keep only the longest sequences, and when exactly two distinct
dice only allow a single move prefer the higher die if playable. -/
def generateAllPossibleMoveSequences (board : BoardState) (p : Player)
    (dice : List Nat) : List (List Move) :=
  let sequences := searchAux p dice.length board dice []
  if sequences.length > 0 then
    let maxLength := (sequences.map List.length).foldr max 0
    let filtered := sequences.filter (fun s => s.length = maxLength)
    if dice.length = 2 ∧ dice.getD 0 0 ≠ dice.getD 1 0 ∧ maxLength = 1 then
      let higherDie := max (dice.getD 0 0) (dice.getD 1 0)
      let higherDieMoves := filtered.filter (usesDie higherDie)
      if higherDieMoves.length > 0 then higherDieMoves else filtered
    else filtered
  else []

/-- Source: getLegalMoves in moves.ts. -/
def getLegalMoves (state : GameState) : List (List Move) :=
  if state.phase ≠ .moving ∨ state.unusedDice.isEmpty then []
  else generateAllPossibleMoveSequences state.board state.currentPlayer state.unusedDice

/-- Comparator of movesEqual in moves.ts, as a boolean total preorder:
ascending by source, then destination, then die. -/
def moveLE (a b : Move) : Bool :=
  if a.fromP ≠ b.fromP then decide (a.fromP < b.fromP)
  else if a.toP ≠ b.toP then decide (a.toP < b.toP)
  else decide (a.die ≤ b.die)

/-- Insertion step of the stable sort used to embed the JavaScript
array sort of movesEqual. -/
def insertMove (m : Move) : List Move → List Move
  | [] => [m]
  | a :: t => if moveLE m a then m :: a :: t else a :: insertMove m t

/-- Stable insertion sort by the movesEqual comparator.  The JavaScript
Array.prototype.sort produces some permutation ordered by the
comparator; the pointwise key comparison of movesEqual depends only on
the sorted key sequence, which every comparator-ordered permutation
shares, so a concrete stable sort is a faithful embedding. -/
def sortMoves : List Move → List Move
  | [] => []
  | m :: t => insertMove m (sortMoves t)

/-- Source: movesEqual in moves.ts: sort copies of both sequences by
(from, to, die) and compare them pointwise on those three fields. -/
def movesEqual (moves1 moves2 : List Move) : Bool :=
  if moves1.length ≠ moves2.length then false
  else
    let sorted1 := sortMoves moves1
    let sorted2 := sortMoves moves2
    (sorted1.zip sorted2).all (fun ab =>
      decide (ab.1.fromP = ab.2.fromP ∧ ab.1.toP = ab.2.toP ∧ ab.1.die = ab.2.die))

/-- Running state of the application loop of validateAndApplyMoves: the
cloned board, the remaining unused dice and the off counters. -/
structure ApplyLoopState where
  board : BoardState
  unusedDice : List Nat
  whiteOff : Int
  blackOff : Int
deriving DecidableEq, Repr

/-- The application loop of validateAndApplyMoves in moves.ts: for each
move, remove the first occurrence of its die from the unused dice
(`indexOf` then `splice`), failing with none when absent, then apply the
move to the board (bear off increments the off counter; the
applyMoveToBoard return value is not inspected by the source). -/
def applyValidatedMoves (p : Player) : List Move → ApplyLoopState → Option ApplyLoopState
  | [], st => some st
  | m :: rest, st =>
    let die := m.die
    let fromBoard := fromBoardCoord p m.fromP
    if st.unusedDice.contains die then
      let unused := st.unusedDice.erase die
      if m.toP = -1 then
        -- bearing off
        match bgetI st.board fromBoard with
        | some fromStack =>
          if fromStack.player = p then
            let nb :=
              if fromStack.count - 1 = 0 then bsetI st.board fromBoard none
              else bsetI st.board fromBoard (some ⟨fromStack.player, fromStack.count - 1⟩)
            let w := if p = .white then st.whiteOff + 1 else st.whiteOff
            let bl := if p = .black then st.blackOff + 1 else st.blackOff
            applyValidatedMoves p rest ⟨nb, unused, w, bl⟩
          else applyValidatedMoves p rest ⟨st.board, unused, st.whiteOff, st.blackOff⟩
        | none => applyValidatedMoves p rest ⟨st.board, unused, st.whiteOff, st.blackOff⟩
      else
        let toBoard := toBoardCoord p m.toP
        let r := applyMoveToBoard st.board fromBoard toBoard p
        applyValidatedMoves p rest ⟨r.2, unused, st.whiteOff, st.blackOff⟩
    else none

/-- Source: validateAndApplyMoves in moves.ts.  An empty sequence passes
only when the generator returns no sequences; a non-empty sequence must
be movesEqual to one of the generated sequences; then the moves are
applied in order to a clone of the state. -/
def validateAndApplyMoves (state : GameState) (moves : List Move) : MoveResult :=
  if state.phase ≠ .moving then ⟨false, some "Not in moving phase", none⟩
  else if state.unusedDice.isEmpty then ⟨false, some "No dice available to use", none⟩
  else if moves.isEmpty then
    if (getLegalMoves state).isEmpty then ⟨true, none, some state⟩
    else ⟨false, some "Must make a legal move when available", none⟩
  else
    let legalMoveSequences := getLegalMoves state
    if legalMoveSequences.any (fun seq => movesEqual seq moves) then
      match applyValidatedMoves state.currentPlayer moves
          ⟨state.board, state.unusedDice, state.whiteOff, state.blackOff⟩ with
      | some st =>
        ⟨true, none, some { state with
            board := st.board
            unusedDice := st.unusedDice
            whiteOff := st.whiteOff
            blackOff := st.blackOff }⟩
      | none => ⟨false, some "Invalid die used", none⟩
    else ⟨false, some "Invalid move sequence", none⟩

/-- Source: hasLegalMoves in moves.ts. -/
def hasLegalMoves (state : GameState) : Bool :=
  !(getLegalMoves state).isEmpty

/-- Source: getAsymmetricCubeOwner in game.ts. -/
def getAsymmetricCubeOwner : Option AsymmetricRoles → Option Player
  | none => none
  | some roles => getSingleAsymmetricRolePlayer roles .doubling

/-- Source: createGame in game.ts: fresh initial state; for the
asymmetric variant the roles are normalized and validated (doubling
against doubling fails fast) and the cube owner is seeded from the
doubling role holder. -/
def createGame (config : GameConfig) : Except String GameState :=
  let base : GameState := {
    variant := config.variant
    board := createInitialBoard
    currentPlayer := .white
    phase := .setup
    whiteDice := none
    blackDice := none
    unusedDice := []
    doublingCube := ⟨1, none⟩
    stakes := 1
    doubleOfferedThisTurn := false
    asymmetricRoles := none
    whiteOff := 0
    blackOff := 0
    moveHistory := []
    winner := none
    winType := none
    pointsAwarded := none }
  if config.variant = .asymmetric then
    match normalizeAsymmetricRoles config.asymmetricRoles with
    | some roles =>
      if ¬ isValidAsymmetricRoles roles then
        .error "Invalid asymmetric roles: Doubling vs Doubling is not allowed"
      else
        .ok { base with
          asymmetricRoles := some roles
          doublingCube := { base.doublingCube with owner := getAsymmetricCubeOwner (some roles) } }
    | none =>
      .ok { base with
        asymmetricRoles := none
        doublingCube := { base.doublingCube with owner := none } }
  else .ok base

/-- Source: rollForFirst in game.ts.  The two rolled dice and the two
random choices (role pick when roles are absent, coin flip for the first
player in the foresight-vs-foresight pairing) are oracle parameters; the
re-roll on a tied standard first roll is modelled by rejecting the tied
pair, so the oracle supplies the final untied roll. -/
def rollForFirst (whiteDie blackDie : Nat) (rolesPick coin : Bool)
    (state : GameState) : Except String GameState :=
  if state.phase ≠ .setup then .error "Can only roll for first in setup phase"
  else if state.variant = .asymmetric then
    let roles := state.asymmetricRoles.getD (randomAsymmetricRoles rolesPick)
    if ¬ isValidAsymmetricRoles roles then
      .error "Invalid asymmetric roles: Doubling vs Doubling is not allowed"
    else
      let firstPlayer :=
        (getSingleAsymmetricRolePlayer roles .foresight).getD
          (if coin then .white else .black)
      .ok { state with
        currentPlayer := firstPlayer
        phase := .rolling
        whiteDice := none
        blackDice := none
        asymmetricRoles := some roles
        doublingCube := { state.doublingCube with owner := getAsymmetricCubeOwner (some roles) } }
  else if whiteDie = blackDie then
    .error "tied first roll re-rolls; the oracle supplies the final untied pair"
  else
    let firstPlayer : Player := if whiteDie > blackDie then .white else .black
    .ok { state with
      currentPlayer := firstPlayer
      phase := .rolling
      whiteDice := some ⟨whiteDie, whiteDie⟩
      blackDice := some ⟨blackDie, blackDie⟩ }

/-- Source: rollTurn in game.ts.  The dice rolled for the mover and (in
the foresight branch) for the opponent are oracle parameters; the
opening-turn re-roll of doubles is modelled by rejecting a doubled
oracle roll for the mover. -/
def rollTurn (currentDice oppDice : Dice) (state : GameState) :
    Except String GameState :=
  if state.phase ≠ .rolling then .error "Can only roll dice in rolling phase"
  else
    let openingTurn := state.moveHistory.isEmpty
    if openingTurn ∧ currentDice.die1 = currentDice.die2 then
      .error "opening roll re-rolls doubles; the oracle supplies the final roll"
    else
      match state.variant, state.asymmetricRoles with
      | .asymmetric, some roles =>
        let currentPlayer := state.currentPlayer
        let opponent := getOpponent currentPlayer
        let currentIsForesight := playerHasAsymmetricRole roles currentPlayer .foresight
        let opponentIsForesight := playerHasAsymmetricRole roles opponent .foresight
        if currentIsForesight then
          let existingOpponentDice :=
            if opponent = .white then state.whiteDice else state.blackDice
          let shouldRollOpponentDiceNow :=
            ¬ opponentIsForesight ∨ openingTurn ∨ existingOpponentDice = none
          let opponentDice :=
            if shouldRollOpponentDiceNow then some oppDice else existingOpponentDice
          .ok { state with
            whiteDice := if currentPlayer = .white then some currentDice else opponentDice
            blackDice := if currentPlayer = .black then some currentDice else opponentDice
            unusedDice := getDiceValues currentDice
            phase := .moving }
        else
          .ok { state with
            whiteDice := if currentPlayer = .white then some currentDice else state.whiteDice
            blackDice := if currentPlayer = .black then some currentDice else state.blackDice
            unusedDice := getDiceValues currentDice
            phase := .moving }
      | _, _ =>
        -- standard variant: the mover rolls their own dice
        .ok { state with
          whiteDice := if state.currentPlayer = .white then some currentDice else state.whiteDice
          blackDice := if state.currentPlayer = .black then some currentDice else state.blackDice
          unusedDice := getDiceValues currentDice
          phase := .moving }

/-- Source: determineWinType in game.ts. -/
def determineWinType (state : GameState) (winner : Player) : WinType :=
  let loser := getOpponent winner
  let loserOff := if loser = .white then state.whiteOff else state.blackOff
  if loserOff > 0 then .normal
  else
    let homeStart : Int := if winner = .white then 1 else 19
    if hasCheckersOnBar state.board loser then .backgammon
    else if (List.range 6).any (fun k =>
        let point : Int := homeStart + (k : Int)
        match bgetI state.board point with
        | some stack => decide (stack.player = loser ∧ stack.count > 0)
        | none => false) then .backgammon
    else .gammon

/-- Source: checkWinner in game.ts. -/
def checkWinner (state : GameState) : Option (Player × WinType) :=
  if state.whiteOff = 15 then some (.white, determineWinType state .white)
  else if state.blackOff = 15 then some (.black, determineWinType state .black)
  else none

/-- Multiplier used by makeMove in game.ts when computing the points
awarded: cube value times 1, 2 or 3 by win type. -/
def winTypeMultiplier : WinType → Nat
  | .normal => 1
  | .gammon => 2
  | .backgammon => 3

/-- Else branch of the turn-completion logic of makeMove in game.ts
(no winner): switch to the opponent; the standard variant returns to
rolling, the asymmetric variant clears the consumed dice, refills both
pre-rolls in the foresight-vs-foresight pairing (the two rolled dice are
the oracle parameters), and enters moving directly when the next player
already has dice. -/
def handOverTurn (fresh1 fresh2 : Dice) (state : GameState) (ns1 : GameState) : GameState :=
  let nextPlayer := getOpponent state.currentPlayer
  match state.variant, state.asymmetricRoles with
  | .asymmetric, some roles =>
    let movedPlayer := state.currentPlayer
    let movedPlayerIsForesight := playerHasAsymmetricRole roles movedPlayer .foresight
    let nextPlayerIsForesight := playerHasAsymmetricRole roles nextPlayer .foresight
    -- clear the dice consumed by the player who just moved
    let wd0 := if movedPlayer = .white then none else ns1.whiteDice
    let bd0 := if movedPlayer = .black then none else ns1.blackDice
    -- foresight vs foresight keeps both players next dice visible
    let wbd1 : Option Dice × Option Dice :=
      if movedPlayerIsForesight ∧ nextPlayerIsForesight then
        let nextPlayerDice := if nextPlayer = .white then wd0 else bd0
        let wbdA : Option Dice × Option Dice :=
          if nextPlayerDice = none then
            if nextPlayer = .white then (some fresh1, bd0) else (wd0, some fresh1)
          else (wd0, bd0)
        let movedPlayerNextDice := if movedPlayer = .white then wbdA.1 else wbdA.2
        if movedPlayerNextDice = none then
          if movedPlayer = .white then (some fresh2, wbdA.2) else (wbdA.1, some fresh2)
        else wbdA
      else (wd0, bd0)
    let nextDice := if nextPlayer = .white then wbd1.1 else wbd1.2
    match nextDice with
    | some nd =>
      { ns1 with
        currentPlayer := nextPlayer
        whiteDice := wbd1.1
        blackDice := wbd1.2
        phase := .moving
        unusedDice := getDiceValues nd
        doubleOfferedThisTurn := false }
    | none =>
      { ns1 with
        currentPlayer := nextPlayer
        phase := .rolling
        unusedDice := []
        whiteDice := none
        blackDice := none
        doubleOfferedThisTurn := false }
  | _, _ =>
    -- standard variant: opponent needs to roll
    { ns1 with
      currentPlayer := nextPlayer
      phase := .rolling
      unusedDice := []
      whiteDice := none
      blackDice := none
      doubleOfferedThisTurn := false }

/-- Turn-completion logic of makeMove in game.ts: record the turn in
the history, check for a winner (setting win type and points awarded:
cube value times the win type multiplier), otherwise hand over to the
opponent. -/
def completeTurn (fresh1 fresh2 : Dice) (state : GameState) (moves : List Move)
    (ns0 : GameState) : GameState :=
  let dice := if state.currentPlayer = .white then state.whiteDice else state.blackDice
  let turn : Turn := ⟨state.currentPlayer, dice, moves⟩
  let ns1 := { ns0 with moveHistory := ns0.moveHistory ++ [turn] }
  match checkWinner ns1 with
  | some wt =>
    let cubeValue := ns1.doublingCube.value
    { ns1 with
      winner := some wt.1
      winType := some wt.2
      phase := .gameOver
      pointsAwarded := some (cubeValue * winTypeMultiplier wt.2) }
  | none => handOverTurn fresh1 fresh2 state ns1

/-- Source: makeMove in game.ts.  Delegates to validateAndApplyMoves;
when all dice are used or no further legal move exists the turn is
finalized by completeTurn on the validator result state; otherwise the
validator result is returned as is. -/
def makeMove (fresh1 fresh2 : Dice) (state : GameState) (moves : List Move) :
    MoveResult :=
  let result := validateAndApplyMoves state moves
  if result.valid = false then result
  else
    match result.newState with
    | none => result
    | some ns0 =>
      let allDiceUsed := ns0.unusedDice.isEmpty
      let hasMoreMoves := hasLegalMoves ns0
      if allDiceUsed ∨ hasMoreMoves = false then
        ⟨true, result.error, some (completeTurn fresh1 fresh2 state moves ns0)⟩
      else result

/-- Source: offerDouble in game.ts: phase and ownership checks, cube cap
at 64, then the cube value doubles with ownership unchanged by the offer
alone. -/
def offerDouble (state : GameState) : Except String GameState :=
  let validPhase :=
    if state.variant = .asymmetric then state.phase = .rolling ∨ state.phase = .moving
    else state.phase = .rolling
  if ¬ validPhase then .error "Can only double at the start of your turn"
  else
    let cube := state.doublingCube
    let check : Except String Unit :=
      match state.variant, state.asymmetricRoles with
      | .asymmetric, some roles =>
        match getSingleAsymmetricRolePlayer roles .doubling with
        | some fixedDoublingPlayer =>
          -- foresight vs doubling keeps a fixed cube owner
          if state.currentPlayer ≠ fixedDoublingPlayer then
            .error "Only doubling player can double in asymmetric variant"
          else if state.doubleOfferedThisTurn then
            .error "Can only offer double once per turn"
          else .ok ()
        | none =>
          -- foresight vs foresight uses standard ownership checks
          if cube.owner ≠ none ∧ cube.owner ≠ some state.currentPlayer then
            .error "You do not own the doubling cube"
          else if state.doubleOfferedThisTurn then
            .error "Can only offer double once per turn"
          else .ok ()
      | _, _ =>
        if cube.owner ≠ none ∧ cube.owner ≠ some state.currentPlayer then
          .error "You do not own the doubling cube"
        else .ok ()
    match check with
    | .error e => .error e
    | .ok _ =>
      if cube.value ≥ 64 then .error "Cube is already at maximum value"
      else
        .ok { state with
          doublingCube := ⟨cube.value * 2, cube.owner⟩
          doubleOfferedThisTurn := decide (state.variant = .asymmetric) }

/-- Source: respondToDouble in game.ts: declining ends the game at the
prior cube value (halved, floored, minimum 1) for the offerer; accepting
sets the stakes and moves ownership (fixed owner in foresight vs
doubling). -/
def respondToDouble (state : GameState) (accept : Bool) : GameState :=
  if accept = false then
    let priorCubeValue := max 1 (state.doublingCube.value / 2)
    { state with
      winner := some state.currentPlayer
      winType := some .normal
      phase := .gameOver
      pointsAwarded := some priorCubeValue }
  else
    match state.variant, state.asymmetricRoles with
    | .asymmetric, some roles =>
      match getSingleAsymmetricRolePlayer roles .doubling with
      | none =>
        { state with
          stakes := state.doublingCube.value
          doublingCube := { state.doublingCube with owner := some (getOpponent state.currentPlayer) } }
      | some _ =>
        { state with
          stakes := state.doublingCube.value
          doublingCube := { state.doublingCube with owner := getAsymmetricCubeOwner (some roles) } }
    | _, _ =>
      { state with
        stakes := state.doublingCube.value
        doublingCube := { state.doublingCube with owner := some (getOpponent state.currentPlayer) } }

inductive MatchType where
  | limited
  | unlimited
deriving DecidableEq, Repr

/-- Source: MatchConfig in the match module of engine/index.ts. -/
structure MatchConfig where
  type : MatchType
  targetScore : Option Nat
  variant : GameVariant
  asymmetricRoles : Option AsymmetricRolesConfig
deriving DecidableEq, Repr

structure MatchScore where
  white : Nat
  black : Nat
deriving DecidableEq, Repr

/-- Source: MatchState in the match module of engine/index.ts. -/
structure MatchState where
  config : MatchConfig
  score : MatchScore
  currentGame : Nat
  winner : Option Player
  crawfordGame : Bool
  postCrawford : Bool
  asymmetricRoles : Option AsymmetricRoles
deriving DecidableEq, Repr

/-- JavaScript truthiness of the optional target score: undefined and 0
are falsy. -/
def targetTruthy : Option Nat → Bool
  | none => false
  | some n => n != 0

/-- Source: updateMatchScore in engine/index.ts: add the points, declare
a match winner at the target of a limited match, and update the Crawford
flags (first arrival at target minus one starts the Crawford game; a
finishing Crawford game sets postCrawford). -/
def updateMatchScore (mt : MatchState) (winner : Player) (points : Nat) : MatchState :=
  let newWhite := mt.score.white + (if winner = .white then points else 0)
  let newBlack := mt.score.black + (if winner = .black then points else 0)
  let matchWinner : Option Player :=
    if mt.config.type = .limited ∧ targetTruthy mt.config.targetScore then
      let ts := mt.config.targetScore.getD 0
      if newWhite ≥ ts then some .white
      else if newBlack ≥ ts then some .black
      else none
    else none
  let flags : Bool × Bool :=
    if mt.config.type = .limited ∧ targetTruthy mt.config.targetScore ∧ matchWinner = none then
      let ts := mt.config.targetScore.getD 0
      let whiteNeedsOne := newWhite = ts - 1
      let blackNeedsOne := newBlack = ts - 1
      if (whiteNeedsOne ∨ blackNeedsOne) ∧ mt.crawfordGame = false ∧ mt.postCrawford = false then
        (true, mt.postCrawford)
      else if mt.crawfordGame then (false, true)
      else (false, mt.postCrawford)
    else (false, mt.postCrawford)
  { mt with
    score := ⟨newWhite, newBlack⟩
    currentGame := mt.currentGame + 1
    winner := matchWinner
    crawfordGame := flags.1
    postCrawford := flags.2 }

/-- Source: canDoubleInMatch in engine/index.ts.  The undefined target
score comparison of the source is falsy, falling through to the
ownership check. -/
def canDoubleInMatch (mt : MatchState) (currentPlayer : Player) (cubeValue : Nat)
    (cubeOwner : Option Player) : Bool :=
  if mt.config.type = .unlimited then
    decide (cubeOwner = none ∨ cubeOwner = some currentPlayer)
  else if mt.crawfordGame then false
  else
    let currentScore := if currentPlayer = .white then mt.score.white else mt.score.black
    match mt.config.targetScore with
    | some targetScore =>
      if currentScore + cubeValue ≥ targetScore then false
      else decide (cubeOwner = none ∨ cubeOwner = some currentPlayer)
    | none => decide (cubeOwner = none ∨ cubeOwner = some currentPlayer)

/-- Source: canOfferDoubleNow in engine/index.ts. -/
def canOfferDoubleNow (mt : MatchState) (state : GameState) (currentPlayer : Player) : Bool :=
  if state.moveHistory.isEmpty then false
  else if state.doublingCube.value ≥ 64 then false
  else if canDoubleInMatch mt currentPlayer state.doublingCube.value
      state.doublingCube.owner = false then false
  else if state.variant = .asymmetric then
    match state.asymmetricRoles with
    | none => false
    | some roles =>
      let gate : Bool :=
        match getSingleAsymmetricRolePlayer roles .doubling with
        | some _ => decide (playerHasAsymmetricRole roles currentPlayer .doubling)
        | none =>
          decide (state.doublingCube.owner = none ∨
                  state.doublingCube.owner = some currentPlayer)
      if gate = false then false
      else if state.doubleOfferedThisTurn then false
      else decide (state.phase = .moving)
  else if state.phase ≠ .rolling then false
  else decide (state.doublingCube.owner = none ∨ state.doublingCube.owner = some currentPlayer)

/-! Definitions supporting the claims: per-slot contribution, the data
model invariant, the reachability relation over the engine operations,
the play-sequence relation describing one legal die-move after another,
and concrete scenario states. -/

/-- Checkers a slot contributes to a player: the stack count when the
stack is owned by the player, else zero. -/
def contrib : Option CheckerStack → Player → Int
  | some stack, p => if stack.player = p then stack.count else 0
  | none, _ => 0

/-- Off counter of a player. -/
def offOf (s : GameState) (p : Player) : Int :=
  if p = .white then s.whiteOff else s.blackOff

/-- Checkers of a player on the board points 1 to 24. -/
def checkersOnPoints (b : BoardState) (p : Player) : Int :=
  ((List.range 24).map (fun k => getCheckerCount b ((k : Int) + 1) p)).sum

/-- Checkers of a player on that player's own bar. -/
def barCheckers (b : BoardState) (p : Player) : Int :=
  getCheckerCount b (getBarPoint p) p

/-- Every stack present on the board has a positive count (the engine
nulls emptied slots, so reachable boards never store a zero or negative
stack). -/
def stacksPositive (b : BoardState) : Prop :=
  ∀ i cs, bgetI b i = some cs → 1 ≤ cs.count

/-- Slot 0 holds only white checkers and slot 25 only black checkers:
each bar belongs to one player. -/
def barsOwned (b : BoardState) : Prop :=
  (∀ cs, bgetI b 0 = some cs → cs.player = .white) ∧
  (∀ cs, bgetI b 25 = some cs → cs.player = .black)

/-- Structural board invariant: 26 slots, positive stacks, bars owned by
their player. -/
def boardInv (b : BoardState) : Prop :=
  b.length = 26 ∧ stacksPositive b ∧ barsOwned b

/-- Full state invariant: structural board invariant plus fifteen
checkers per player counting board, bars and off. -/
def stateInv (s : GameState) : Prop :=
  boardInv s.board ∧ ∀ p, countCheckersOnBoard s.board p + offOf s p = 15

/-- States reachable from createGame through the engine operations.  The
dice and coin oracles of the rolling operations are universally
quantified, so every run of the source is covered. -/
inductive Reachable : GameState → Prop
  | created (cfg : GameConfig) (s : GameState) :
      createGame cfg = .ok s → Reachable s
  | rolledFirst (s : GameState) (wd bd : Nat) (rp c : Bool) (s' : GameState) :
      Reachable s → rollForFirst wd bd rp c s = .ok s' → Reachable s'
  | rolledTurn (s : GameState) (cd od : Dice) (s' : GameState) :
      Reachable s → rollTurn cd od s = .ok s' → Reachable s'
  | moved (s : GameState) (f1 f2 : Dice) (mv : List Move) (s' : GameState) :
      Reachable s → (makeMove f1 f2 s mv).newState = some s' → Reachable s'
  | offered (s s' : GameState) :
      Reachable s → offerDouble s = .ok s' → Reachable s'
  | responded (s : GameState) (a : Bool) :
      Reachable s → Reachable (respondToDouble s a)

/-- One legal die-move after another: each step picks a still-available
die by index, a candidate move generated for it, and a successful
application, reaching a final board and remaining dice.  This is
exactly the branching step of the depth-first search. -/
inductive PlaySeq (p : Player) :
    BoardState → List Nat → List Move → BoardState → List Nat → Prop
  | nil (b : BoardState) (d : List Nat) : PlaySeq p b d [] b d
  | cons (b : BoardState) (dice : List Nat) (i : Nat) (m : Move)
      (b1 : BoardState) (m1 : Move) (rest : List Move)
      (b2 : BoardState) (d2 : List Nat)
      (hi : i < dice.length)
      (hm : m ∈ generateMovesForDie b p (dice.getD i 0))
      (ha : tryApplyGen p b m = some (b1, m1))
      (hrest : PlaySeq p b1 (dice.eraseIdx i) rest b2 d2) :
      PlaySeq p b dice (m1 :: rest) b2 d2

/-- No single die-move is possible: for every remaining die, every
candidate move fails to apply. -/
def NoFurtherMove (p : Player) (b : BoardState) (d : List Nat) : Prop :=
  ∀ i, i < d.length → ∀ m ∈ generateMovesForDie b p (d.getD i 0),
    tryApplyGen p b m = none

/-- Loser has a checker inside the winner's home board, scanning the six
home points. -/
def loserCheckerInWinnerHome (b : BoardState) (loser winner : Player) : Bool :=
  (List.range 6).any (fun k =>
    let point : Int := (if winner = .white then 1 else 19) + (k : Int)
    decide (getCheckerCount b point loser > 0))

/-- Win classification as worded by the specification: backgammon when
the loser has borne off none and has a checker on the bar or in the
winner's home board, else gammon when the loser has borne off none,
else normal. -/
def claimWinType (s : GameState) (winner : Player) : WinType :=
  let loser := getOpponent winner
  if offOf s loser = 0 ∧
      (hasCheckersOnBar s.board loser ∨ loserCheckerInWinnerHome s.board loser winner) then
    .backgammon
  else if offOf s loser = 0 then .gammon
  else .normal

/-- Template game state used by the concrete scenarios below (standard
variant, white to move, initial board). -/
def baseState : GameState := {
  variant := .standard
  board := createInitialBoard
  currentPlayer := .white
  phase := .moving
  whiteDice := some ⟨3, 1⟩
  blackDice := none
  unusedDice := [3, 1]
  doublingCube := ⟨1, none⟩
  stakes := 1
  doubleOfferedThisTurn := false
  asymmetricRoles := none
  whiteOff := 0
  blackOff := 0
  moveHistory := []
  winner := none
  winType := none
  pointsAwarded := none }

/-- Scenario board: white has one checker on the bar and black guards
both entry points for dice 6 and 5 (slots 19 and 20) with two checkers
each. -/
def blockedEntryBoard : BoardState :=
  [ some ⟨.white, 1⟩,
    none, none, none, none, none, none, none, none, none, none, none, none,
    none, none, none, none, none, none,
    some ⟨.black, 2⟩,
    some ⟨.black, 2⟩,
    none, none, none, none, none ]

/-- Scenario state for the forced pass: white on the bar with dice 6 and
5 and both entry points blocked. -/
def forcedPassState : GameState :=
  { baseState with board := blockedEntryBoard, unusedDice := [6, 5] }

/-- Scenario board: white has one checker on the bar, the entry point
for die 5 (slot 20) is blocked, the entry point for die 6 (slot 19) is
open, and slot 14 is blocked so the 5 cannot be played after
entering. -/
def higherDieBoard : BoardState :=
  [ some ⟨.white, 1⟩,
    none, none, none, none, none, none, none, none, none, none, none, none,
    none,
    some ⟨.black, 2⟩,
    none, none, none, none,
    none,
    some ⟨.black, 2⟩,
    none, none, none, none, none ]

/-- Scenario state where only one die can be played and it must be the
higher one. -/
def higherDieState : GameState :=
  { baseState with board := higherDieBoard, unusedDice := [5, 6] }

/-- Scenario board for a finishing bear off: white has one checker left
on point 1, black has all fifteen checkers stacked on point 3 inside the
white home board. -/
def finishingBoard : BoardState :=
  [ none,
    some ⟨.white, 1⟩,
    none,
    some ⟨.black, 15⟩,
    none, none, none, none, none, none, none, none, none,
    none, none, none, none, none, none, none,
    none, none, none, none, none, none ]

/-- Scenario state about to win by backgammon: white bears off the last
checker with a 1 while black still has all checkers in the white home
board. -/
def finishingState : GameState :=
  { baseState with board := finishingBoard, unusedDice := [1], whiteOff := 14 }

/-- New state produced by the finishing bear off, used to witness the
win classification. -/
def finishingResultState : GameState :=
  ((makeMove ⟨1, 2⟩ ⟨3, 4⟩ finishingState [⟨1, -1, 1, false⟩]).newState).getD baseState

/-- Scenario C state: standard game, black to act in the rolling phase,
cube at 4 and centered. -/
def scenarioCState : GameState :=
  { baseState with currentPlayer := .black, phase := .rolling, doublingCube := ⟨4, none⟩ }

/-- Crawford game in progress in a limited match to 5 with white on 4
points. -/
def crawfordMatch : MatchState :=
  ⟨⟨.limited, some 5, .standard, none⟩, ⟨4, 0⟩, 2, none, true, false, none⟩

/-- Limited match to 5 one game before white first reaches 4 points. -/
def preCrawfordMatch : MatchState :=
  ⟨⟨.limited, some 5, .standard, none⟩, ⟨3, 0⟩, 1, none, false, false, none⟩

/-- Limited match to 5 after the Crawford game. -/
def postCrawfordMatch : MatchState :=
  ⟨⟨.limited, some 5, .standard, none⟩, ⟨4, 1⟩, 3, none, false, true, none⟩

/-- Game state with one completed turn, used to exercise the in-game
doubling gate. -/
def midGameState : GameState :=
  { baseState with phase := .rolling, moveHistory := [⟨.white, some ⟨3, 1⟩, []⟩] }

/-- Board with a white blot source and a black guarded destination, used
to exercise the blocked-destination branch of applyMoveToBoard. -/
def blockedDestBoard : BoardState :=
  [ none,
    none, none,
    some ⟨.black, 3⟩,
    none, none,
    some ⟨.white, 2⟩,
    none, none, none, none, none, none,
    none, none, none, none, none, none, none,
    none, none, none, none, none, none ]

/-- The freshly created standard game, as produced by createGame. -/
def initialStandardGame : GameState := {
  variant := .standard
  board := createInitialBoard
  currentPlayer := .white
  phase := .setup
  whiteDice := none
  blackDice := none
  unusedDice := []
  doublingCube := ⟨1, none⟩
  stakes := 1
  doubleOfferedThisTurn := false
  asymmetricRoles := none
  whiteOff := 0
  blackOff := 0
  moveHistory := []
  winner := none
  winType := none
  pointsAwarded := none }

/-- Branch of applyMoveToBoard that removes one checker from the source
slot: the slot empties when the stack held a single checker. -/
def decSrc (b : BoardState) (fromPt : Int) (fs : CheckerStack) : BoardState :=
  if fs.count - 1 = 0 then bsetI b fromPt none
  else bsetI b fromPt (some ⟨fs.player, fs.count - 1⟩)

/-- Branch of applyMoveToBoard that sends a hit checker to the bar of
its owner. -/
def barAdd (b : BoardState) (ts : CheckerStack) : BoardState :=
  let opponentBar := getBarPoint ts.player
  match bgetI b opponentBar with
  | some barStack => bsetI b opponentBar (some ⟨barStack.player, barStack.count + 1⟩)
  | none => bsetI b opponentBar (some ⟨ts.player, 1⟩)

/-- Blocked status of a single slot content for the moving player: an
opposing stack of two or more checkers. -/
def blockedSlot (os : Option CheckerStack) (p : Player) : Bool :=
  match os with
  | some stack => decide (stack.player ≠ p ∧ stack.count ≥ 2)
  | none => false

/-- A move whose destination is safe on board `b` for mover `p`: either
a bear off, or a destination in the 1..24 range that is not blocked.
Every move of a generated sequence satisfies this at the turn's starting
board, and destination blocked status at 1..24 is invariant under the
mover's own board updates, so validated sequences only ever call
applyMoveToBoard on unblocked destinations. -/
def MoveDestOK (p : Player) (b : BoardState) (m : Move) : Prop :=
  m.toP = -1 ∨ (1 ≤ toBoardCoord p m.toP ∧ toBoardCoord p m.toP ≤ 24 ∧
    blockedSlot (bgetI b (toBoardCoord p m.toP)) p = false)

/-- Off counter of a player inside the application loop state. -/
def offLoop (st : ApplyLoopState) (q : Player) : Int :=
  if q = .white then st.whiteOff else st.blackOff

/-! Helper lemmas about board reads, writes and counting. -/

theorem length_bsetI (b : BoardState) (i : Int) (v : Option CheckerStack) :
    (bsetI b i v).length = b.length := by
  unfold bsetI; split <;> simp

theorem bgetI_some_bounds {b : BoardState} {i : Int} {cs : CheckerStack}
    (h : bgetI b i = some cs) : 0 ≤ i ∧ i.toNat < b.length := by
  unfold bgetI at h
  split at h
  · rename_i h0
    refine ⟨h0, ?_⟩
    by_contra hlt
    push_neg at hlt
    rw [List.getD_eq_getElem?_getD, List.getElem?_eq_none hlt] at h
    simp at h
  · simp at h

theorem bgetI_bsetI_self {b : BoardState} {i : Int} (v : Option CheckerStack)
    (h0 : 0 ≤ i) (hl : i.toNat < b.length) : bgetI (bsetI b i v) i = v := by
  unfold bgetI bsetI
  rw [if_pos h0, if_pos h0, List.getD_eq_getElem?_getD, List.getElem?_set_self hl]
  rfl

theorem bgetI_bsetI_ne {i j : Int} (b : BoardState) (v : Option CheckerStack)
    (hij : i ≠ j) : bgetI (bsetI b i v) j = bgetI b j := by
  unfold bgetI bsetI
  by_cases h0i : 0 ≤ i
  · by_cases h0j : 0 ≤ j
    · rw [if_pos h0i, if_pos h0j, if_pos h0j,
        List.getD_eq_getElem?_getD, List.getD_eq_getElem?_getD,
        List.getElem?_set_ne]
      omega
    · rw [if_pos h0i, if_neg h0j, if_neg h0j]
  · rw [if_neg h0i]

theorem getCheckerCount_eq_contrib (b : BoardState) (i : Int) (p : Player) :
    getCheckerCount b i p = contrib (bgetI b i) p := by
  unfold getCheckerCount contrib
  cases bgetI b i <;> rfl

theorem countOn_eq_map_sum (b : BoardState) (p : Player) :
    countCheckersOnBoard b p = (b.map (fun os => contrib os p)).sum := by
  unfold countCheckersOnBoard
  refine congrArg List.sum (List.map_congr_left ?_)
  intro os _
  cases os <;> rfl

theorem sum_map_set (l : List (Option CheckerStack)) (p : Player) :
    ∀ (n : Nat) (v : Option CheckerStack), n < l.length →
    ((l.set n v).map (fun os => contrib os p)).sum =
      (l.map (fun os => contrib os p)).sum - contrib (l.getD n none) p + contrib v p := by
  induction l with
  | nil => intro n v h; simp at h
  | cons a t ih =>
    intro n v h
    cases n with
    | zero => simp; ring
    | succ m =>
      have hm : m < t.length := by simpa using h
      simp only [List.set_cons_succ, List.map_cons, List.sum_cons, List.getD_cons_succ]
      rw [ih m v hm]
      ring

theorem countOn_bsetI {b : BoardState} {i : Int} (v : Option CheckerStack) (p : Player)
    (h0 : 0 ≤ i) (hl : i.toNat < b.length) :
    countCheckersOnBoard (bsetI b i v) p =
      countCheckersOnBoard b p - contrib (bgetI b i) p + contrib v p := by
  rw [countOn_eq_map_sum, countOn_eq_map_sum]
  unfold bsetI bgetI
  rw [if_pos h0, if_pos h0]
  exact sum_map_set b p i.toNat v hl

theorem applyMove_eq_fromNone {b : BoardState} {fromPt : Int} (toPt : Int) (p : Player)
    (h : bgetI b fromPt = none) : applyMoveToBoard b fromPt toPt p = (false, b) := by
  unfold applyMoveToBoard
  rw [h]

theorem applyMove_eq_fromBad {b : BoardState} {fromPt : Int} (toPt : Int) {p : Player}
    {fs : CheckerStack} (h : bgetI b fromPt = some fs)
    (hbad : fs.player ≠ p ∨ fs.count = 0) :
    applyMoveToBoard b fromPt toPt p = (false, b) := by
  unfold applyMoveToBoard
  rw [h]
  dsimp only
  rw [if_pos hbad]

theorem applyMove_eq_main {b : BoardState} {fromPt : Int} (toPt : Int) {p : Player}
    {fs : CheckerStack} (h : bgetI b fromPt = some fs)
    (hok : ¬ (fs.player ≠ p ∨ fs.count = 0)) :
    applyMoveToBoard b fromPt toPt p =
      (match bgetI (decSrc b fromPt fs) toPt with
       | some toStack =>
         if toStack.player ≠ p then
           if toStack.count = 1 then
             (true, bsetI (bsetI (barAdd (decSrc b fromPt fs) toStack) toPt none) toPt
               (some ⟨p, 1⟩))
           else (false, decSrc b fromPt fs)
         else (true, bsetI (decSrc b fromPt fs) toPt (some ⟨toStack.player, toStack.count + 1⟩))
       | none => (true, bsetI (decSrc b fromPt fs) toPt (some ⟨p, 1⟩))) := by
  unfold applyMoveToBoard decSrc barAdd
  rw [h]
  dsimp only
  rw [if_neg hok]

theorem bgetI_decSrc_ne {fromPt j : Int} (b : BoardState) (fs : CheckerStack)
    (hne : fromPt ≠ j) : bgetI (decSrc b fromPt fs) j = bgetI b j := by
  unfold decSrc
  split <;> exact bgetI_bsetI_ne b _ hne

theorem bgetI_decSrc_self {b : BoardState} {fromPt : Int} {fs : CheckerStack}
    (h : bgetI b fromPt = some fs) :
    bgetI (decSrc b fromPt fs) fromPt =
      (if fs.count - 1 = 0 then none else some ⟨fs.player, fs.count - 1⟩) := by
  obtain ⟨h0, hl⟩ := bgetI_some_bounds h
  unfold decSrc
  split
  · rw [bgetI_bsetI_self _ h0 hl]
  · rw [bgetI_bsetI_self _ h0 hl]

theorem length_decSrc (b : BoardState) (fromPt : Int) (fs : CheckerStack) :
    (decSrc b fromPt fs).length = b.length := by
  unfold decSrc
  split <;> rw [length_bsetI]

theorem countOn_decSrc {b : BoardState} {fromPt : Int} {fs : CheckerStack}
    (h : bgetI b fromPt = some fs) (q : Player) :
    countCheckersOnBoard (decSrc b fromPt fs) q =
      countCheckersOnBoard b q - (if fs.player = q then 1 else 0) := by
  obtain ⟨h0, hl⟩ := bgetI_some_bounds h
  unfold decSrc
  split
  · rename_i hc
    rw [countOn_bsetI _ _ h0 hl, h]
    simp only [contrib]
    split <;> rename_i hpq
    · omega
    · omega
  · rename_i hc
    rw [countOn_bsetI _ _ h0 hl, h]
    simp only [contrib]
    split <;> omega

/-- C9: createGame rejects the doubling-vs-doubling asymmetric role
configuration with an error instead of silently producing a state, and
with roles white doubling, black foresight it creates a state whose
doubling cube owner is white. -/
theorem claim_C9_createGame_roles :
    createGame ⟨.asymmetric, some (.perPlayer ⟨.doubling, .doubling⟩)⟩ =
      .error "Invalid asymmetric roles: Doubling vs Doubling is not allowed" ∧
    (createGame ⟨.asymmetric, some (.perPlayer ⟨.doubling, .foresight⟩)⟩).map
      (fun s => s.doublingCube.owner) = .ok (some .white) := by
  exact ⟨rfl, rfl⟩

/-- C10: invoked against a destination guarded by two or more opposing
checkers, applyMoveToBoard reports failure but has already removed one
checker from the source stack, leaving the moving player one checker
short while the opponent count is unchanged. -/
theorem claim_C10_applyMove_nonatomic (b : BoardState) (fromPt toPt : Int) (p : Player)
    (fs ts : CheckerStack)
    (hf : bgetI b fromPt = some fs) (hfp : fs.player = p) (hfc : fs.count ≠ 0)
    (ht : bgetI b toPt = some ts) (htp : ts.player ≠ p) (htc : 2 ≤ ts.count) :
    (applyMoveToBoard b fromPt toPt p).1 = false ∧
    countCheckersOnBoard (applyMoveToBoard b fromPt toPt p).2 p =
      countCheckersOnBoard b p - 1 ∧
    countCheckersOnBoard (applyMoveToBoard b fromPt toPt p).2 (getOpponent p) =
      countCheckersOnBoard b (getOpponent p) := by
  have hne : fromPt ≠ toPt := by
    intro he
    rw [he, ht] at hf
    exact htp (by cases hf; exact hfp)
  have hd : bgetI (decSrc b fromPt fs) toPt = some ts := by
    rw [bgetI_decSrc_ne b fs hne, ht]
  rw [applyMove_eq_main toPt hf (by simp [hfp, hfc]), hd]
  dsimp only
  rw [if_pos (by simpa using htp), if_neg (by omega)]
  refine ⟨rfl, ?_, ?_⟩
  · rw [countOn_decSrc hf p, if_pos hfp]
  · rw [countOn_decSrc hf (getOpponent p)]
    have : fs.player ≠ getOpponent p := by
      rw [hfp]; cases p <;> simp [getOpponent]
    rw [if_neg this]
    ring

/-- Witness for C10 at a concrete board: white moves from slot 6 onto a
black point guarded by three checkers. -/
theorem claim_C10_witness :
    (applyMoveToBoard blockedDestBoard 6 3 .white).1 = false ∧
    countCheckersOnBoard (applyMoveToBoard blockedDestBoard 6 3 .white).2 .white =
      countCheckersOnBoard blockedDestBoard .white - 1 ∧
    countCheckersOnBoard (applyMoveToBoard blockedDestBoard 6 3 .white).2 (getOpponent .white) =
      countCheckersOnBoard blockedDestBoard (getOpponent .white) :=
  claim_C10_applyMove_nonatomic blockedDestBoard 6 3 .white ⟨.white, 2⟩ ⟨.black, 3⟩
    (by decide) (by decide) (by decide) (by decide) (by decide) (by decide)

theorem offerDouble_ok_shape {s s' : GameState} (h : offerDouble s = .ok s') :
    s' = { s with
      doublingCube := ⟨s.doublingCube.value * 2, s.doublingCube.owner⟩
      doubleOfferedThisTurn := decide (s.variant = .asymmetric) } := by
  unfold offerDouble at h
  dsimp only at h
  repeat' split at h
  all_goals first
    | exact Except.noConfusion h
    | (cases h; rfl)

/-- C6: after offerDouble has doubled the cube, declining ends the game
at once with the offering player as winner, phase gameOver, and points
awarded equal to the doubled value halved (floored, minimum 1), which is
the cube value before the double. -/
theorem claim_C6_decline_after_double (s s' : GameState)
    (h : offerDouble s = .ok s') (hv : 1 ≤ s.doublingCube.value) :
    (respondToDouble s' false).winner = some s.currentPlayer ∧
    (respondToDouble s' false).phase = .gameOver ∧
    s'.doublingCube.value = s.doublingCube.value * 2 ∧
    (respondToDouble s' false).pointsAwarded = some (max 1 (s'.doublingCube.value / 2)) ∧
    (respondToDouble s' false).pointsAwarded = some s.doublingCube.value := by
  have hs := offerDouble_ok_shape h
  subst hs
  refine ⟨rfl, rfl, rfl, rfl, ?_⟩
  show some (max 1 (s.doublingCube.value * 2 / 2)) = some s.doublingCube.value
  rw [Nat.mul_div_cancel s.doublingCube.value (by norm_num), Nat.max_eq_right hv]

/-- Witness for C6, scenario C: centered cube at 4, black offers, white
declines: black wins 4 points and the game is over. -/
theorem claim_C6_witness :
    (respondToDouble
        { scenarioCState with doublingCube := ⟨8, none⟩, doubleOfferedThisTurn := false }
        false).winner = some .black ∧
    (respondToDouble
        { scenarioCState with doublingCube := ⟨8, none⟩, doubleOfferedThisTurn := false }
        false).phase = .gameOver ∧
    (respondToDouble
        { scenarioCState with doublingCube := ⟨8, none⟩, doubleOfferedThisTurn := false }
        false).pointsAwarded = some 4 := by
  have h : offerDouble scenarioCState =
      .ok { scenarioCState with doublingCube := ⟨8, none⟩, doubleOfferedThisTurn := false } := by
    rfl
  have := claim_C6_decline_after_double scenarioCState _ h (by decide)
  exact ⟨this.1, this.2.1, this.2.2.2.2⟩

/-- Counterexample to C5 as stated: a Crawford game that decides the
match.  The match state produced when this Crawford game completes has a
match winner and postCrawford is still false, against the claim that
completing the Crawford game always sets postCrawford. -/
theorem claim_C5_counterexample :
    crawfordMatch.crawfordGame = true ∧
    (updateMatchScore crawfordMatch .white 1).winner = some .white ∧
    (updateMatchScore crawfordMatch .white 1).postCrawford = false := by
  exact ⟨rfl, rfl, rfl⟩

/-- C5 amended: in a limited match, first arrival at target minus one
(without winning) flags the next game crawfordGame; during a Crawford
game canOfferDoubleNow is false for both players whatever the cube
holds; a completing Crawford game sets postCrawford provided it does not
produce the match winner; and postCrawford never reverts to false. -/
theorem claim_C5_crawford_amended :
    (∀ (mt : MatchState) (w : Player) (pts t : Nat),
      mt.config.type = .limited → mt.config.targetScore = some t → t ≠ 0 →
      mt.crawfordGame = false → mt.postCrawford = false →
      ((updateMatchScore mt w pts).score.white = t - 1 ∨
       (updateMatchScore mt w pts).score.black = t - 1) →
      (updateMatchScore mt w pts).score.white < t →
      (updateMatchScore mt w pts).score.black < t →
      (updateMatchScore mt w pts).crawfordGame = true)
    ∧ (∀ (mt : MatchState) (s : GameState) (p : Player),
      mt.config.type = .limited → mt.crawfordGame = true →
      canOfferDoubleNow mt s p = false)
    ∧ (∀ (mt : MatchState) (w : Player) (pts t : Nat),
      mt.config.type = .limited → mt.config.targetScore = some t → t ≠ 0 →
      mt.crawfordGame = true →
      (updateMatchScore mt w pts).winner = none →
      (updateMatchScore mt w pts).postCrawford = true)
    ∧ (∀ (mt : MatchState) (w : Player) (pts : Nat),
      mt.postCrawford = true → (updateMatchScore mt w pts).postCrawford = true) := by
  refine ⟨?_, ?_, ?_, ?_⟩
  · intro mt w pts t h1 h2 h3 h4 h5 h6 h7 h8
    have h7' : mt.score.white + (if w = Player.white then pts else 0) < t := h7
    have h8' : mt.score.black + (if w = Player.black then pts else 0) < t := h8
    have h6' : mt.score.white + (if w = Player.white then pts else 0) = t - 1 ∨
        mt.score.black + (if w = Player.black then pts else 0) = t - 1 := h6
    show (updateMatchScore mt w pts).crawfordGame = true
    unfold updateMatchScore
    dsimp only
    rw [h2]
    simp only [Option.getD_some, targetTruthy]
    rw [if_neg (show ¬ ((mt.score.white + if w = Player.white then pts else 0) ≥ t) by omega)]
    rw [if_neg (show ¬ ((mt.score.black + if w = Player.black then pts else 0) ≥ t) by omega)]
    rw [ite_self, if_pos ⟨h1, by simpa using h3, rfl⟩, if_pos ⟨h6', h4, h5⟩]
  · intro mt s p h1 h2
    have hcd : canDoubleInMatch mt p s.doublingCube.value s.doublingCube.owner = false := by
      unfold canDoubleInMatch
      rw [if_neg (by rw [h1]; simp), if_pos h2]
    unfold canOfferDoubleNow
    rw [hcd]
    split
    · rfl
    · split
      · rfl
      · rw [if_pos rfl]
  · intro mt w pts t h1 h2 h3 h4 h5
    unfold updateMatchScore at h5 ⊢
    dsimp only at h5 ⊢
    rw [h2] at h5 ⊢
    simp only [Option.getD_some, targetTruthy] at h5 ⊢
    rw [if_pos ⟨h1, by simpa using h3, h5⟩]
    rw [if_neg (by simp [h4]), if_pos h4]
  · intro mt w pts h
    unfold updateMatchScore
    dsimp only
    repeat' split
    all_goals simp [h]

/-- Witness for the amended C5 at concrete matches to 5: first arrival
at 4 flags the next game, the Crawford game forbids doubling for both
players, a non-deciding Crawford completion sets postCrawford, and
postCrawford persists. -/
theorem claim_C5_witness :
    (updateMatchScore preCrawfordMatch .white 1).crawfordGame = true ∧
    canOfferDoubleNow crawfordMatch midGameState .white = false ∧
    canOfferDoubleNow crawfordMatch midGameState .black = false ∧
    (updateMatchScore crawfordMatch .black 1).postCrawford = true ∧
    (updateMatchScore postCrawfordMatch .black 1).postCrawford = true := by
  refine ⟨?_, ?_, ?_, ?_, ?_⟩
  · exact claim_C5_crawford_amended.1 preCrawfordMatch .white 1 5 rfl rfl (by decide)
      rfl rfl (by decide) (by decide) (by decide)
  · exact claim_C5_crawford_amended.2.1 crawfordMatch midGameState .white rfl rfl
  · exact claim_C5_crawford_amended.2.1 crawfordMatch midGameState .black rfl rfl
  · exact claim_C5_crawford_amended.2.2.1 crawfordMatch .black 1 5 rfl rfl (by decide)
      rfl (by decide)
  · exact claim_C5_crawford_amended.2.2.2 postCrawfordMatch .black 1 rfl

theorem checkWinner_none (s : GameState) (hw : s.whiteOff ≠ 15) (hb : s.blackOff ≠ 15) :
    checkWinner s = none := by
  unfold checkWinner
  rw [if_neg hw, if_neg hb]

theorem checkWinner_congr (s1 s2 : GameState) (hb : s1.board = s2.board)
    (hw : s1.whiteOff = s2.whiteOff) (hbk : s1.blackOff = s2.blackOff) :
    checkWinner s1 = checkWinner s2 := by
  unfold checkWinner determineWinType hasCheckersOnBar
  rw [hb, hw, hbk]

theorem handOverTurn_fields (f1 f2 : Dice) (s ns1 : GameState) :
    (handOverTurn f1 f2 s ns1).board = ns1.board ∧
    (handOverTurn f1 f2 s ns1).whiteOff = ns1.whiteOff ∧
    (handOverTurn f1 f2 s ns1).blackOff = ns1.blackOff ∧
    (handOverTurn f1 f2 s ns1).doublingCube = ns1.doublingCube ∧
    (handOverTurn f1 f2 s ns1).moveHistory = ns1.moveHistory ∧
    (handOverTurn f1 f2 s ns1).winner = ns1.winner ∧
    (handOverTurn f1 f2 s ns1).currentPlayer = getOpponent s.currentPlayer := by
  unfold handOverTurn
  repeat' (first | (dsimp only) | split)
  all_goals exact ⟨rfl, rfl, rfl, rfl, rfl, rfl, rfl⟩

theorem completeTurn_shape (f1 f2 : Dice) (s : GameState) (mv : List Move)
    (ns0 : GameState) :
    (completeTurn f1 f2 s mv ns0).board = ns0.board ∧
    (completeTurn f1 f2 s mv ns0).whiteOff = ns0.whiteOff ∧
    (completeTurn f1 f2 s mv ns0).blackOff = ns0.blackOff ∧
    (completeTurn f1 f2 s mv ns0).doublingCube = ns0.doublingCube ∧
    (completeTurn f1 f2 s mv ns0).moveHistory = ns0.moveHistory ++
      [⟨s.currentPlayer, if s.currentPlayer = .white then s.whiteDice else s.blackDice, mv⟩] ∧
    ((∃ wt, checkWinner (completeTurn f1 f2 s mv ns0) = some wt ∧
        (completeTurn f1 f2 s mv ns0).winner = some wt.1 ∧
        (completeTurn f1 f2 s mv ns0).winType = some wt.2 ∧
        (completeTurn f1 f2 s mv ns0).pointsAwarded =
          some (ns0.doublingCube.value * winTypeMultiplier wt.2)) ∨
      (checkWinner (completeTurn f1 f2 s mv ns0) = none ∧
        (completeTurn f1 f2 s mv ns0).winner = ns0.winner ∧
        (completeTurn f1 f2 s mv ns0).currentPlayer = getOpponent s.currentPlayer)) := by
  unfold completeTurn
  dsimp only
  generalize (if s.currentPlayer = Player.white then s.whiteDice else s.blackDice) = dce
  split
  · rename_i wt hcw
    refine ⟨rfl, rfl, rfl, rfl, rfl, Or.inl ⟨wt, ?_, rfl, rfl, rfl⟩⟩
    exact (checkWinner_congr _ _ rfl rfl rfl).trans hcw
  · rename_i hcw
    obtain ⟨hob, how, hobk, hoc, hoh, howin, hocp⟩ := handOverTurn_fields f1 f2 s _
    exact ⟨hob, how, hobk, hoc, hoh,
      Or.inr ⟨(checkWinner_congr _ _ hob how hobk).trans hcw, howin, hocp⟩⟩

set_option maxHeartbeats 2000000 in
/-- C4: with unused dice in the moving phase, an empty move sequence
succeeds exactly when no legal sequence exists (forced pass), finalizing
the turn and handing play to the opponent with the board unchanged;
when a legal sequence exists the empty sequence is rejected with the
rule violation error and no new state. -/
theorem claim_C4_empty_sequence (d1 d2 : Dice) (s : GameState)
    (hphase : s.phase = .moving) (hdice : s.unusedDice ≠ [])
    (hw : s.whiteOff ≠ 15) (hb : s.blackOff ≠ 15) :
    (getLegalMoves s = [] →
      (makeMove d1 d2 s []).valid = true ∧
      ∃ ns, (makeMove d1 d2 s []).newState = some ns ∧
        ns.currentPlayer = getOpponent s.currentPlayer ∧
        ns.board = s.board ∧
        ns.moveHistory = s.moveHistory ++
          [⟨s.currentPlayer, if s.currentPlayer = .white then s.whiteDice else s.blackDice, []⟩] ∧
        ns.winner = s.winner) ∧
    (getLegalMoves s ≠ [] →
      makeMove d1 d2 s [] = ⟨false, some "Must make a legal move when available", none⟩) := by
  constructor
  · intro hleg
    have hval : validateAndApplyMoves s [] = ⟨true, none, some s⟩ := by
      unfold validateAndApplyMoves
      rw [if_neg (by simp [hphase]), if_neg (by simp [hdice]), if_pos (by simp),
        if_pos (by simp [hleg])]
    have hmore : hasLegalMoves s = false := by
      simp [hasLegalMoves, hleg]
    unfold makeMove
    simp only [hval, Bool.true_eq_false, if_false, reduceIte]
    rw [if_pos (Or.inr hmore)]
    obtain ⟨hcb, hcwo, hcbo, hcc, hch, hdisj⟩ := completeTurn_shape d1 d2 s [] s
    have hnone : checkWinner (completeTurn d1 d2 s [] s) = none :=
      (checkWinner_congr _ s hcb hcwo hcbo).trans (checkWinner_none s hw hb)
    rcases hdisj with ⟨wt, h1, _⟩ | ⟨h1, h2, h3⟩
    · rw [hnone] at h1
      exact Option.noConfusion h1
    · exact ⟨rfl, completeTurn d1 d2 s [] s, rfl, h3, hcb, hch, h2⟩
  · intro hleg
    have hval : validateAndApplyMoves s [] =
        ⟨false, some "Must make a legal move when available", none⟩ := by
      unfold validateAndApplyMoves
      rw [if_neg (by simp [hphase]), if_neg (by simp [hdice]), if_pos (by simp),
        if_neg (by simp [hleg])]
    unfold makeMove
    rw [hval]
    dsimp only
    rw [if_pos rfl]

/-- Witness for C4, scenario A: white on the bar with both entry points
for dice 6 and 5 guarded; the empty sequence passes the turn to black
with the board unchanged, and on the template opening state where legal
moves exist the empty sequence is rejected. -/
theorem claim_C4_witness :
    ((makeMove ⟨1, 2⟩ ⟨3, 4⟩ forcedPassState []).valid = true ∧
      ∃ ns, (makeMove ⟨1, 2⟩ ⟨3, 4⟩ forcedPassState []).newState = some ns ∧
        ns.currentPlayer = getOpponent forcedPassState.currentPlayer ∧
        ns.board = forcedPassState.board ∧
        ns.moveHistory = forcedPassState.moveHistory ++
          [⟨forcedPassState.currentPlayer,
            if forcedPassState.currentPlayer = .white then forcedPassState.whiteDice
            else forcedPassState.blackDice, []⟩] ∧
        ns.winner = forcedPassState.winner) ∧
    makeMove ⟨1, 2⟩ ⟨3, 4⟩ baseState [] =
      ⟨false, some "Must make a legal move when available", none⟩ := by
  constructor
  · exact (claim_C4_empty_sequence ⟨1, 2⟩ ⟨3, 4⟩ forcedPassState rfl (by decide)
      (by decide) (by decide)).1 (by decide)
  · exact (claim_C4_empty_sequence ⟨1, 2⟩ ⟨3, 4⟩ baseState rfl (by decide)
      (by decide) (by decide)).2 (by decide)

theorem validate_some_fields (s : GameState) (mv : List Move) (ns0 : GameState)
    (h : (validateAndApplyMoves s mv).newState = some ns0) :
    ns0.moveHistory = s.moveHistory ∧ ns0.currentPlayer = s.currentPlayer ∧
    ns0.doublingCube = s.doublingCube ∧ ns0.winner = s.winner ∧
    ns0.variant = s.variant ∧ ns0.phase = s.phase ∧
    ns0.whiteDice = s.whiteDice ∧ ns0.blackDice = s.blackDice ∧
    ns0.asymmetricRoles = s.asymmetricRoles := by
  unfold validateAndApplyMoves at h
  repeat' (first | (dsimp only at h) | split at h)
  all_goals first
    | exact Option.noConfusion h
    | (cases Option.some.inj h
       exact ⟨rfl, rfl, rfl, rfl, rfl, rfl, rfl, rfl, rfl⟩)

/-- Shape of a successful makeMove: the new state keeps the board, off
counters and cube of the validator result; either the turn did not
complete (states equal), or the history grew by one turn and the state
is either a classified win or a hand over to the opponent. -/
theorem makeMove_some_shape (d1 d2 : Dice) (s : GameState) (mv : List Move)
    (ns : GameState) (h : (makeMove d1 d2 s mv).newState = some ns) :
    ∃ ns0, (validateAndApplyMoves s mv).newState = some ns0 ∧
      ns.board = ns0.board ∧ ns.whiteOff = ns0.whiteOff ∧ ns.blackOff = ns0.blackOff ∧
      ns.doublingCube = ns0.doublingCube ∧
      (ns = ns0 ∨
        (ns.moveHistory.length = ns0.moveHistory.length + 1 ∧
          ((∃ wt, checkWinner ns = some wt ∧ ns.winner = some wt.1 ∧
              ns.winType = some wt.2 ∧
              ns.pointsAwarded = some (ns.doublingCube.value * winTypeMultiplier wt.2)) ∨
            (checkWinner ns = none ∧ ns.winner = ns0.winner ∧
              ns.currentPlayer = getOpponent s.currentPlayer)))) := by
  unfold makeMove at h
  dsimp only at h
  split at h
  · exact ⟨ns, h, rfl, rfl, rfl, rfl, Or.inl rfl⟩
  · split at h
    · rename_i heq
      rw [heq] at h
      exact Option.noConfusion h
    · rename_i ns0 heq
      split at h
      · cases Option.some.inj h
        obtain ⟨hcb, hcwo, hcbo, hcc, hch, hdisj⟩ := completeTurn_shape d1 d2 s mv ns0
        refine ⟨ns0, heq, hcb, hcwo, hcbo, hcc, Or.inr ⟨by rw [hch]; simp, ?_⟩⟩
        rcases hdisj with ⟨wt, h1, h2, h3, h4⟩ | ⟨h1, h2, h3⟩
        · refine Or.inl ⟨wt, h1, h2, h3, ?_⟩
          rw [hcc]
          exact h4
        · exact Or.inr ⟨h1, h2, h3⟩
      · exact ⟨ns, h, rfl, rfl, rfl, rfl, Or.inl rfl⟩

theorem any_congr {α : Type} (l : List α) (p q : α → Bool)
    (h : ∀ a ∈ l, p a = q a) : l.any p = l.any q := by
  induction l with
  | nil => rfl
  | cons a t ih =>
    simp only [List.any_cons]
    rw [h a (by simp), ih (fun x hx => h x (by simp [hx]))]

/-- The win classification computed by determineWinType agrees with the
classification as worded by the specification, whenever the loser has a
non-negative off count. -/
theorem determineWinType_eq_claim (s : GameState) (w : Player)
    (hoff : 0 ≤ offOf s (getOpponent w)) :
    determineWinType s w = claimWinType s w := by
  have hoffp : 0 ≤ (if getOpponent w = Player.white then s.whiteOff else s.blackOff) := hoff
  have hscan : ((List.range 6).any (fun k =>
      match bgetI s.board ((if w = Player.white then (1 : Int) else 19) + (k : Int)) with
      | some stack => decide (stack.player = getOpponent w ∧ stack.count > 0)
      | none => false)) = loserCheckerInWinnerHome s.board (getOpponent w) w := by
    unfold loserCheckerInWinnerHome
    refine any_congr _ _ _ ?_
    intro k _
    dsimp only
    rw [getCheckerCount_eq_contrib]
    cases hbg : bgetI s.board ((if w = Player.white then (1 : Int) else 19) + (k : Int))
    · simp [contrib]
    · rename_i st
      simp only [contrib]
      by_cases hpl : st.player = getOpponent w
      · simp [hpl]
      · simp [hpl]
  unfold determineWinType claimWinType
  dsimp only
  rw [hscan]
  by_cases hz : (if getOpponent w = Player.white then s.whiteOff else s.blackOff) > 0
  · have hz' : ¬ (offOf s (getOpponent w) = 0) := by unfold offOf; omega
    rw [if_pos hz, if_neg (by simp [hz']), if_neg hz']
  · have hz0 : offOf s (getOpponent w) = 0 := by unfold offOf; omega
    rw [if_neg hz]
    by_cases hbar : hasCheckersOnBar s.board (getOpponent w) = true
    · rw [if_pos hbar, if_pos ⟨hz0, Or.inl hbar⟩]
    · rw [if_neg hbar]
      by_cases hhome : loserCheckerInWinnerHome s.board (getOpponent w) w = true
      · rw [if_pos hhome, if_pos ⟨hz0, Or.inr hhome⟩]
      · rw [if_neg hhome, if_neg (by simp [hbar, hhome]), if_pos hz0]

/-- C7: when makeMove completes a turn (the history grew) and a player
has borne off fifteen checkers, that player is the winner, the win is
classified backgammon, gammon or normal per the loser's position, and
points awarded are the cube value times the 1, 2 or 3 multiplier. -/
theorem claim_C7_win_classification (d1 d2 : Dice) (s : GameState) (mv : List Move)
    (ns : GameState) (h : (makeMove d1 d2 s mv).newState = some ns)
    (hcomplete : ns.moveHistory.length ≠ s.moveHistory.length)
    (w : Player) (hw15 : offOf ns w = 15)
    (hnotboth : w = .black → ns.whiteOff ≠ 15)
    (hpos : 0 ≤ offOf ns (getOpponent w)) :
    ns.winner = some w ∧
    ns.winType = some (claimWinType ns w) ∧
    ns.pointsAwarded = some (ns.doublingCube.value * winTypeMultiplier (claimWinType ns w)) := by
  obtain ⟨ns0, heq, hb, hwo, hbo, hc, hdisj⟩ := makeMove_some_shape d1 d2 s mv ns h
  obtain ⟨hh0, _⟩ := validate_some_fields s mv ns0 heq
  rcases hdisj with rfl | ⟨hlen, hwin | ⟨hnone, _, _⟩⟩
  · exact absurd (by rw [hh0]) hcomplete
  · obtain ⟨wt, hcw, hwn, hwt, hpa⟩ := hwin
    have hwt_eq : wt = (w, determineWinType ns w) := by
      unfold checkWinner at hcw
      cases w
      · rw [if_pos (show ns.whiteOff = 15 from hw15)] at hcw
        exact (Option.some.inj hcw).symm
      · rw [if_neg (hnotboth rfl), if_pos (show ns.blackOff = 15 from hw15)] at hcw
        exact (Option.some.inj hcw).symm
    have hkey := determineWinType_eq_claim ns w hpos
    rw [hwt_eq] at hwn hwt hpa
    dsimp only at hwn hwt hpa
    rw [hkey] at hwt hpa
    exact ⟨hwn, hwt, hpa⟩
  · exfalso
    unfold checkWinner at hnone
    cases w
    · rw [if_pos (show ns.whiteOff = 15 from hw15)] at hnone
      exact Option.noConfusion hnone
    · rw [if_neg (hnotboth rfl), if_pos (show ns.blackOff = 15 from hw15)] at hnone
      exact Option.noConfusion hnone

/-- Witness for C7: white bears off the fifteenth checker while black,
with nothing borne off, still occupies the white home board; the result
is a backgammon worth three times the cube. -/
theorem claim_C7_witness :
    (makeMove ⟨1, 2⟩ ⟨3, 4⟩ finishingState [⟨1, -1, 1, false⟩]).newState =
      some finishingResultState ∧
    finishingResultState.winner = some .white ∧
    finishingResultState.winType = some (claimWinType finishingResultState .white) ∧
    finishingResultState.pointsAwarded =
      some (finishingResultState.doublingCube.value *
        winTypeMultiplier (claimWinType finishingResultState .white)) ∧
    claimWinType finishingResultState .white = .backgammon := by
  have hns : (makeMove ⟨1, 2⟩ ⟨3, 4⟩ finishingState [⟨1, -1, 1, false⟩]).newState =
      some finishingResultState := by decide
  have hmain := claim_C7_win_classification ⟨1, 2⟩ ⟨3, 4⟩ finishingState
    [⟨1, -1, 1, false⟩] finishingResultState hns (by decide) .white (by decide)
    (by decide) (by decide)
  exact ⟨hns, hmain.1, hmain.2.1, hmain.2.2, by decide⟩

theorem maxLen_one (l : List (List Move)) (hne : l ≠ [])
    (h1 : ∀ S ∈ l, S.length = 1) : (l.map List.length).foldr max 0 = 1 := by
  induction l with
  | nil => exact absurd rfl hne
  | cons a t ih =>
    simp only [List.map_cons, List.foldr_cons]
    rw [h1 a (by simp)]
    cases t with
    | nil => rfl
    | cons b t2 =>
      rw [ih (by simp) (fun S hS => h1 S (by simp [hS]))]
      simp

/-- C8: with exactly two distinct remaining dice and all search results
of length one, the returned sequences are exactly the single-move
sequences using the higher die when any exists, and otherwise all the
single-move candidates (which then use the lower die). -/
theorem claim_C8_higher_die (b : BoardState) (p : Player) (a c : Nat) (hne : a ≠ c)
    (hlen : ∀ S ∈ searchAux p 2 b [a, c] [], S.length = 1)
    (hnon : searchAux p 2 b [a, c] [] ≠ []) :
    ((∃ S ∈ searchAux p 2 b [a, c] [], usesDie (max a c) S = true) →
      generateAllPossibleMoveSequences b p [a, c] =
        (searchAux p 2 b [a, c] []).filter (usesDie (max a c))) ∧
    ((¬ ∃ S ∈ searchAux p 2 b [a, c] [], usesDie (max a c) S = true) →
      generateAllPossibleMoveSequences b p [a, c] = searchAux p 2 b [a, c] []) := by
  have hmax : ((searchAux p 2 b [a, c] []).map List.length).foldr max 0 = 1 :=
    maxLen_one _ hnon hlen
  have hfil : (searchAux p 2 b [a, c] []).filter (fun s => decide (s.length = 1)) =
      searchAux p 2 b [a, c] [] := by
    refine List.filter_eq_self.mpr ?_
    intro S hS
    simp [hlen S hS]
  unfold generateAllPossibleMoveSequences
  have h2 : ([a, c] : List Nat).length = 2 := rfl
  rw [h2]
  simp only [List.getD_cons_zero, List.getD_cons_succ]
  rw [if_pos (by simpa using List.length_pos.mpr hnon)]
  rw [hmax]
  rw [if_pos (by simp [hne])]
  rw [hfil]
  constructor
  · intro hex
    rw [if_pos ?hp]
    case hp =>
      obtain ⟨S, hS, hu⟩ := hex
      refine List.length_pos.mpr ?_
      intro hcontra
      exact absurd hu (by simpa using (List.filter_eq_nil_iff.mp hcontra) S hS)
  · intro hnex
    rw [if_neg ?hn]
    case hn =>
      intro hpos
      apply hnex
      have hnenil : (searchAux p 2 b [a, c] []).filter (usesDie (max a c)) ≠ [] := by
        intro hcontra
        rw [hcontra] at hpos
        simp at hpos
      obtain ⟨S, hS⟩ := List.exists_mem_of_ne_nil _ hnenil
      exact ⟨S, (List.mem_filter.mp hS).1, (List.mem_filter.mp hS).2⟩

/-- Witness for C8: white on the bar with dice 5 and 6, entry with 5
blocked and the 5 unplayable after entering with 6: the single returned
sequence is the bar entry with the higher die. -/
theorem claim_C8_witness :
    generateAllPossibleMoveSequences higherDieBoard .white [5, 6] =
      (searchAux .white 2 higherDieBoard [5, 6] []).filter (usesDie (max 5 6)) ∧
    generateAllPossibleMoveSequences higherDieBoard .white [5, 6] =
      [[⟨0, 19, 6, false⟩]] := by
  have h := (claim_C8_higher_die higherDieBoard .white 5 6 (by decide) (by decide)
    (by decide)).1 (by decide)
  exact ⟨h, by decide⟩

theorem perm_getD_eraseIdx : ∀ (l : List Nat) (i : Nat), i < l.length →
    l.Perm (l.getD i 0 :: l.eraseIdx i) := by
  intro l
  induction l with
  | nil => intro i hi; simp at hi
  | cons a t ih =>
    intro i hi
    cases i with
    | zero => simp
    | succ j =>
      have hj : j < t.length := by simpa using hi
      have h1 : List.Perm (a :: t) (a :: (t.getD j 0 :: t.eraseIdx j)) :=
        List.Perm.cons a (ih j hj)
      have h2 : List.Perm (a :: (t.getD j 0 :: t.eraseIdx j))
          (t.getD j 0 :: a :: t.eraseIdx j) := List.Perm.swap _ _ _
      exact h1.trans h2

theorem generateMovesForDie_die {b : BoardState} {p : Player} {die : Nat} {m : Move}
    (hm : m ∈ generateMovesForDie b p die) : m.die = die := by
  unfold generateMovesForDie at hm
  split at hm
  · repeat' split at hm
    all_goals simp at hm
    all_goals first
      | (subst hm; rfl)
      | (obtain ⟨-, hm⟩ := hm; subst hm; rfl)
      | (obtain ⟨hm, -⟩ := hm; subst hm; rfl)
  · simp only [List.mem_flatMap, List.mem_range] at hm
    obtain ⟨k, _, hmem⟩ := hm
    repeat' split at hmem
    all_goals simp at hmem
    all_goals first
      | (subst hmem; rfl)
      | (obtain ⟨-, hmem⟩ := hmem; subst hmem; rfl)
      | (obtain ⟨hmem, -⟩ := hmem; subst hmem; rfl)

theorem tryApplyGen_move_eq {p : Player} {b : BoardState} {m : Move}
    {b' : BoardState} {m' : Move} (h : tryApplyGen p b m = some (b', m')) :
    m'.fromP = m.fromP ∧ m'.toP = m.toP ∧ m'.die = m.die := by
  unfold tryApplyGen at h
  repeat' (first | (dsimp only at h) | split at h)
  all_goals first
    | exact Option.noConfusion h
    | (cases Option.some.inj h; exact ⟨rfl, rfl, rfl⟩)

theorem searchSteps_mem_elim {p : Player} {b : BoardState} {dice : List Nat}
    {b' : BoardState} {d' : List Nat} {m' : Move}
    (h : (b', d', m') ∈ searchSteps p b dice) :
    ∃ i, i < dice.length ∧ d' = dice.eraseIdx i ∧
      ∃ m ∈ generateMovesForDie b p (dice.getD i 0), tryApplyGen p b m = some (b', m') := by
  unfold searchSteps at h
  simp only [List.mem_flatMap, List.mem_range, List.mem_filterMap,
    Option.map_eq_some'] at h
  obtain ⟨i, hi, m, hm, r, hr, heq⟩ := h
  simp only [Prod.mk.injEq] at heq
  obtain ⟨h1, h2, h3⟩ := heq
  refine ⟨i, hi, h2.symm, m, hm, ?_⟩
  rw [hr, ← h1, ← h3]

theorem searchSteps_mem_intro {p : Player} {b : BoardState} {dice : List Nat}
    {i : Nat} {m : Move} {b' : BoardState} {m' : Move}
    (hi : i < dice.length) (hm : m ∈ generateMovesForDie b p (dice.getD i 0))
    (ha : tryApplyGen p b m = some (b', m')) :
    (b', dice.eraseIdx i, m') ∈ searchSteps p b dice := by
  unfold searchSteps
  simp only [List.mem_flatMap, List.mem_range, List.mem_filterMap]
  exact ⟨i, hi, m, hm, by rw [ha]; rfl⟩

theorem searchSteps_nil_noMove {p : Player} {b : BoardState} {dice : List Nat}
    (h : searchSteps p b dice = []) : NoFurtherMove p b dice := by
  intro i hi m hm
  cases hap : tryApplyGen p b m with
  | none => rfl
  | some r =>
    have hmem : (r.1, dice.eraseIdx i, r.2) ∈ searchSteps p b dice :=
      searchSteps_mem_intro hi hm (by rw [hap])
    rw [h] at hmem
    simp at hmem

theorem searchAux_sound_nil (p : Player) (fuel : Nat) (b : BoardState)
    (current R : List Move) (hR : R ∈ searchAux p fuel b [] current) :
    R ≠ [] ∧ ∃ T bf df, R = current ++ T ∧ PlaySeq p b [] T bf df ∧
      (df = [] ∨ NoFurtherMove p bf df) := by
  simp only [searchAux] at hR
  split at hR
  · rename_i hcur
    simp at hR
    exact ⟨by intro hc; rw [hc] at hR; rw [← hR] at hcur; simp at hcur, [], b, [],
      by rw [hR]; simp, PlaySeq.nil b [], Or.inl rfl⟩
  · simp at hR

/-- Every sequence emitted by the search is non-empty and decomposes as
the accumulated prefix plus a play sequence ending at a leaf: dice
exhausted or no candidate move applying. -/
theorem searchAux_sound (p : Player) :
    ∀ (fuel : Nat) (b : BoardState) (dice : List Nat) (current R : List Move),
      fuel = dice.length →
      R ∈ searchAux p fuel b dice current →
      R ≠ [] ∧ ∃ T bf df, R = current ++ T ∧ PlaySeq p b dice T bf df ∧
        (df = [] ∨ NoFurtherMove p bf df) := by
  intro fuel
  induction fuel with
  | zero =>
    intro b dice current R hfuel hR
    have hd : dice = [] := by
      cases dice with
      | nil => rfl
      | cons x xs => simp at hfuel
    subst hd
    exact searchAux_sound_nil p 0 b current R hR
  | succ f ih =>
    intro b dice current R hfuel hR
    cases dice with
    | nil => exact searchAux_sound_nil p (f + 1) b current R hR
    | cons d ds =>
      simp only [searchAux] at hR
      split at hR
      · rename_i hcond
        simp at hR
        refine ⟨by intro hc; rw [hc] at hR; rw [← hR] at hcond; simp at hcond, [], b, d :: ds,
          by rw [hR]; simp, PlaySeq.nil b (d :: ds), Or.inr ?_⟩
        exact searchSteps_nil_noMove (by simpa using hcond.1)
      · simp only [List.mem_flatMap] at hR
        obtain ⟨st, hst, hRsub⟩ := hR
        obtain ⟨b1, d1, m1⟩ := st
        obtain ⟨i, hi, hd1, m0, hm0, happ⟩ := searchSteps_mem_elim hst
        subst hd1
        have hflen : f = ((d :: ds).eraseIdx i).length := by
          rw [List.length_eraseIdx_of_lt hi]
          simp only [List.length_cons] at hfuel ⊢
          omega
        obtain ⟨hRne, T, bf, df, hRT, hplay, hleaf⟩ :=
          ih b1 ((d :: ds).eraseIdx i) (current ++ [m1]) R hflen hRsub
        refine ⟨hRne, m1 :: T, bf, df, by rw [hRT]; simp, ?_, hleaf⟩
        exact PlaySeq.cons b (d :: ds) i m0 b1 m1 T bf df hi hm0 happ hplay

/-- The search emits at least one sequence whenever the accumulated
prefix is non-empty. -/
theorem searchAux_ne_nil (p : Player) :
    ∀ (fuel : Nat) (b : BoardState) (dice : List Nat) (current : List Move),
      fuel = dice.length → current ≠ [] → searchAux p fuel b dice current ≠ [] := by
  intro fuel
  induction fuel with
  | zero =>
    intro b dice current hfuel hcur
    have hd : dice = [] := by
      cases dice with
      | nil => rfl
      | cons x xs => simp at hfuel
    subst hd
    simp only [searchAux]
    rw [if_pos (List.length_pos.mpr hcur)]
    simp
  | succ f ih =>
    intro b dice current hfuel hcur
    cases dice with
    | nil =>
      simp only [searchAux]
      rw [if_pos (List.length_pos.mpr hcur)]
      simp
    | cons d ds =>
      simp only [searchAux]
      split
      · simp
      · rename_i hcond
        have hlen : current.length > 0 := List.length_pos.mpr hcur
        have hsne : searchSteps p b (d :: ds) ≠ [] := by
          intro hnil
          exact hcond ⟨by simp [hnil], hlen⟩
        intro hmapnil
        rw [List.flatMap_eq_nil_iff] at hmapnil
        obtain ⟨st, hst⟩ := List.exists_mem_of_ne_nil _ hsne
        obtain ⟨b1, d1, m1⟩ := st
        obtain ⟨i, hi, hd1, -, -, -⟩ := searchSteps_mem_elim hst
        subst hd1
        have hflen : f = ((d :: ds).eraseIdx i).length := by
          rw [List.length_eraseIdx_of_lt hi]
          simp only [List.length_cons] at hfuel ⊢
          omega
        exact ih b1 ((d :: ds).eraseIdx i) (current ++ [m1]) hflen (by simp)
          (hmapnil (b1, (d :: ds).eraseIdx i, m1) hst)

/-- Every play sequence is dominated by some emitted sequence: the
search explores it as a prefix. -/
theorem searchAux_complete (p : Player) {b : BoardState} {dice : List Nat}
    {T : List Move} {bf : BoardState} {df : List Nat}
    (hT : PlaySeq p b dice T bf df) :
    ∀ (current : List Move), current ≠ [] ∨ T ≠ [] →
      ∃ R ∈ searchAux p dice.length b dice current,
        current.length + T.length ≤ R.length := by
  induction hT with
  | nil b0 d0 =>
    intro current hne
    have hcur : current ≠ [] := by
      rcases hne with hne | hne
      · exact hne
      · exact absurd rfl hne
    have hnn := searchAux_ne_nil p d0.length b0 d0 current rfl hcur
    obtain ⟨R, hR⟩ := List.exists_mem_of_ne_nil _ hnn
    obtain ⟨-, T', bf', df', hRT, -, -⟩ :=
      searchAux_sound p d0.length b0 d0 current R rfl hR
    exact ⟨R, hR, by rw [hRT]; simp⟩
  | cons b0 dice0 i m b1 m1 rest b2 d2 hi hm ha hrest ih =>
    intro current hne
    cases dice0 with
    | nil => simp at hi
    | cons d ds =>
      have hstep := searchSteps_mem_intro hi hm ha
      have hflen : ((d :: ds).eraseIdx i).length = ds.length := by
        rw [List.length_eraseIdx_of_lt hi]
        simp
      obtain ⟨R, hR, hlen⟩ := ih (current ++ [m1]) (Or.inl (by simp))
      rw [hflen] at hR
      refine ⟨R, ?_, ?_⟩
      · simp only [List.length_cons, searchAux]
        rw [if_neg ?hcnd]
        case hcnd =>
          intro hcond
          have hnil : searchSteps p b0 (d :: ds) = [] := by simpa using hcond.1
          rw [hnil] at hstep
          simp at hstep
        simp only [List.mem_flatMap]
        exact ⟨(b1, (d :: ds).eraseIdx i, m1), hstep, hR⟩
      · simp only [List.length_append, List.length_cons, List.length_singleton] at hlen ⊢
        omega

theorem le_foldr_max : ∀ (l : List (List Move)) (R : List Move), R ∈ l →
    R.length ≤ (l.map List.length).foldr max 0 := by
  intro l
  induction l with
  | nil => intro R hR; simp at hR
  | cons a t ih =>
    intro R hR
    simp only [List.map_cons, List.foldr_cons]
    rcases List.mem_cons.mp hR with rfl | hR2
    · exact le_max_left _ _
    · exact le_trans (ih R hR2) (le_max_right _ _)

/-- Every sequence the generator returns came out of the raw search and
has the maximum length over the raw search output: the higher-die filter
and the max-length filter only discard elements. -/
theorem generateAll_mem_max (b : BoardState) (p : Player) (dice : List Nat)
    (S : List Move) (hS : S ∈ generateAllPossibleMoveSequences b p dice) :
    S ∈ searchAux p dice.length b dice [] ∧
    S.length = ((searchAux p dice.length b dice []).map List.length).foldr max 0 := by
  unfold generateAllPossibleMoveSequences at hS
  repeat' (first | (dsimp only at hS) | split at hS)
  all_goals simp at hS
  all_goals tauto

/-- C2: in the moving phase with dice remaining, every sequence returned
by getLegalMoves is a legal play sequence ending at a leaf (dice
exhausted, or no candidate move for any remaining die applies — so it
cannot be extended by one further legal die-move), and its length
dominates that of every legal play sequence with those dice. -/
theorem claim_C2_maximal_sequences (s : GameState)
    (hphase : s.phase = .moving) (hdice : s.unusedDice ≠ [])
    (S : List Move) (hS : S ∈ getLegalMoves s) :
    (∃ bf df, PlaySeq s.currentPlayer s.board s.unusedDice S bf df ∧
      (df = [] ∨ NoFurtherMove s.currentPlayer bf df)) ∧
    (∀ T bf df, PlaySeq s.currentPlayer s.board s.unusedDice T bf df →
      T.length ≤ S.length) := by
  unfold getLegalMoves at hS
  rw [if_neg (by simp [hphase, hdice])] at hS
  obtain ⟨hraw, hmax⟩ := generateAll_mem_max _ _ _ S hS
  obtain ⟨hne, T, bf, df, hST, hplay, hleaf⟩ :=
    searchAux_sound s.currentPlayer s.unusedDice.length s.board s.unusedDice [] S rfl hraw
  simp only [List.nil_append] at hST
  subst hST
  refine ⟨⟨bf, df, hplay, hleaf⟩, ?_⟩
  intro T2 bf2 df2 hT2
  cases T2 with
  | nil => simp
  | cons m t =>
    obtain ⟨R, hR, hlen⟩ := searchAux_complete s.currentPlayer hT2 [] (Or.inr (by simp))
    calc (m :: t).length ≤ R.length := by simpa using hlen
      _ ≤ _ := le_foldr_max _ R hR
      _ = S.length := hmax.symm

theorem zip_self_all (l : List Move) :
    (l.zip l).all (fun ab =>
      decide (ab.1.fromP = ab.2.fromP ∧ ab.1.toP = ab.2.toP ∧ ab.1.die = ab.2.die)) = true := by
  induction l with
  | nil => rfl
  | cons m t ih => simpa using ih

/-- movesEqual is reflexive: any sequence is set-equal to itself. -/
theorem movesEqual_refl (S : List Move) : movesEqual S S = true := by
  unfold movesEqual
  rw [if_neg (by simp)]
  exact zip_self_all (sortMoves S)

/-- A play sequence consumes exactly some permutation of the dice: the
starting dice are a permutation of the dice carried by the played moves
followed by the leftover dice. -/
theorem PlaySeq_dice_perm {p : Player} {b : BoardState} {dice : List Nat}
    {T : List Move} {bf : BoardState} {df : List Nat}
    (hT : PlaySeq p b dice T bf df) : dice.Perm (T.map Move.die ++ df) := by
  induction hT with
  | nil b0 d0 => simp
  | cons b0 dice0 i m b1 m1 rest b2 d2 hi hm ha hrest ih =>
    have hdie : m1.die = dice0.getD i 0 := by
      rw [(tryApplyGen_move_eq ha).2.2, generateMovesForDie_die hm]
    refine (perm_getD_eraseIdx dice0 i hi).trans ?_
    rw [List.map_cons, List.cons_append, hdie]
    exact ih.cons (dice0.getD i 0)

/-- The application loop of validateAndApplyMoves always succeeds when
the dice carried by the moves are available in the unused pool in the
multiset sense.  The loop ignores the board-level success flag, so die
availability is the only failure source. -/
theorem applyValidatedMoves_total (p : Player) :
    ∀ (T : List Move) (board : BoardState) (dice0 : List Nat) (w bk : Int)
      (rest : List Nat), (T.map Move.die ++ rest).Perm dice0 →
      ∃ st, applyValidatedMoves p T ⟨board, dice0, w, bk⟩ = some st := by
  intro T
  induction T with
  | nil =>
    intro board dice0 w bk rest h
    exact ⟨⟨board, dice0, w, bk⟩, rfl⟩
  | cons m t ih =>
    intro board dice0 w bk rest h
    have hmem : m.die ∈ dice0 := h.mem_iff.mp (by simp)
    have hperm : (t.map Move.die ++ rest).Perm (dice0.erase m.die) :=
      (h.trans (List.perm_cons_erase hmem)).cons_inv
    simp only [applyValidatedMoves]
    rw [if_pos (by simpa using hmem)]
    by_cases ht : m.toP = -1
    · rw [if_pos ht]
      cases hbg : bgetI board (fromBoardCoord p m.fromP) with
      | none => exact ih _ _ _ _ rest hperm
      | some fs =>
        dsimp only
        by_cases hp : fs.player = p
        · rw [if_pos hp]
          exact ih _ _ _ _ rest hperm
        · rw [if_neg hp]
          exact ih _ _ _ _ rest hperm
    · rw [if_neg ht]
      exact ih _ _ _ _ rest hperm

/-- The validator succeeds on every generator output sequence: the
sequence matches itself under movesEqual and its dice are drawn from the
unused pool. -/
theorem validateAndApplyMoves_roundtrip (s : GameState)
    (hphase : s.phase = .moving) (hdice : s.unusedDice ≠ [])
    (S : List Move) (hS : S ∈ getLegalMoves s) :
    (validateAndApplyMoves s S).valid = true ∧
    ∃ ns0, (validateAndApplyMoves s S).newState = some ns0 := by
  have hS2 : S ∈ generateAllPossibleMoveSequences s.board s.currentPlayer s.unusedDice := by
    unfold getLegalMoves at hS
    rwa [if_neg (by simp [hphase, hdice])] at hS
  obtain ⟨hraw, -⟩ := generateAll_mem_max _ _ _ S hS2
  obtain ⟨hne, T, bf, df, hST, hplay, -⟩ :=
    searchAux_sound s.currentPlayer s.unusedDice.length s.board s.unusedDice [] S rfl hraw
  simp only [List.nil_append] at hST
  subst hST
  have hany : (getLegalMoves s).any (fun seq => movesEqual seq S) = true :=
    List.any_eq_true.mpr ⟨S, hS, movesEqual_refl S⟩
  obtain ⟨st, hst⟩ := applyValidatedMoves_total s.currentPlayer S s.board s.unusedDice
    s.whiteOff s.blackOff df (PlaySeq_dice_perm hplay).symm
  unfold validateAndApplyMoves
  rw [if_neg (by simp [hphase]), if_neg (by simpa using hdice),
    if_neg (by simpa using hne), if_pos (by simpa using hany), hst]
  exact ⟨rfl, _, rfl⟩

/-- C3: in the moving phase with dice remaining, every sequence returned
by getLegalMoves, passed unchanged to makeMove on the same state, yields
a result with valid = true and a new state. -/
theorem claim_C3_roundtrip (fresh1 fresh2 : Dice) (s : GameState)
    (hphase : s.phase = .moving) (hdice : s.unusedDice ≠ [])
    (S : List Move) (hS : S ∈ getLegalMoves s) :
    (makeMove fresh1 fresh2 s S).valid = true ∧
    ∃ ns, (makeMove fresh1 fresh2 s S).newState = some ns := by
  obtain ⟨hv, ns0, hns⟩ := validateAndApplyMoves_roundtrip s hphase hdice S hS
  unfold makeMove
  dsimp only
  generalize hE : validateAndApplyMoves s S = R
  rw [hE] at hv hns
  obtain ⟨v, e, n⟩ := R
  simp only at hv hns
  subst hv
  subst hns
  rw [if_neg (by simp)]
  dsimp only
  by_cases hc : (ns0.unusedDice.isEmpty = true ∨ hasLegalMoves ns0 = false)
  · rw [if_pos hc]
    exact ⟨rfl, _, rfl⟩
  · rw [if_neg hc]
    exact ⟨rfl, _, rfl⟩

/-- Concrete check of the round trip: the unique legal finishing bear
off at finishingState is accepted by makeMove. -/
theorem claim_C3_witness :
    (makeMove ⟨6, 2⟩ ⟨5, 4⟩ finishingState [⟨1, -1, 1, false⟩]).valid = true ∧
    ∃ ns, (makeMove ⟨6, 2⟩ ⟨5, 4⟩ finishingState [⟨1, -1, 1, false⟩]).newState = some ns :=
  claim_C3_roundtrip ⟨6, 2⟩ ⟨5, 4⟩ finishingState (by decide) (by decide)
    [⟨1, -1, 1, false⟩] (by decide)

/-- Concrete check of the maximality law: in the higher-die scenario the
returned bar entry with the 6 is a leaf play sequence of dominating
length. -/
theorem claim_C2_witness :
    (∃ bf df, PlaySeq higherDieState.currentPlayer higherDieState.board
        higherDieState.unusedDice [⟨0, 19, 6, false⟩] bf df ∧
      (df = [] ∨ NoFurtherMove higherDieState.currentPlayer bf df)) ∧
    (∀ T bf df, PlaySeq higherDieState.currentPlayer higherDieState.board
        higherDieState.unusedDice T bf df →
      T.length ≤ [(⟨0, 19, 6, false⟩ : Move)].length) :=
  claim_C2_maximal_sequences higherDieState (by decide) (by decide)
    [⟨0, 19, 6, false⟩] (by decide)

theorem length_barAdd (b : BoardState) (ts : CheckerStack) :
    (barAdd b ts).length = b.length := by
  unfold barAdd
  dsimp only
  cases bgetI b (getBarPoint ts.player) <;> rw [length_bsetI]

theorem barPoint_cases (q : Player) : getBarPoint q = 0 ∨ getBarPoint q = 25 := by
  cases q
  · exact Or.inl rfl
  · exact Or.inr rfl

theorem barPoint_ne_mid {pt : Int} (q : Player) (h1 : 1 ≤ pt) (h24 : pt ≤ 24) :
    getBarPoint q ≠ pt := by
  rcases barPoint_cases q with h | h <;> omega

theorem bgetI_barAdd_ne {pt : Int} (b : BoardState) (ts : CheckerStack)
    (h1 : 1 ≤ pt) (h24 : pt ≤ 24) : bgetI (barAdd b ts) pt = bgetI b pt := by
  unfold barAdd
  dsimp only
  cases bgetI b (getBarPoint ts.player) <;>
    exact bgetI_bsetI_ne b _ (barPoint_ne_mid ts.player h1 h24)

theorem barPoint_nonneg (q : Player) : 0 ≤ getBarPoint q := by
  rcases barPoint_cases q with h | h <;> omega

theorem barPoint_toNat_lt {b : BoardState} (q : Player) (hlen : b.length = 26) :
    (getBarPoint q).toNat < b.length := by
  rcases barPoint_cases q with h | h <;> rw [h] <;> omega

theorem countOn_barAdd {b : BoardState} (ts : CheckerStack) (q : Player)
    (hlen : b.length = 26) (hbars : barsOwned b) :
    countCheckersOnBoard (barAdd b ts) q =
      countCheckersOnBoard b q + (if ts.player = q then 1 else 0) := by
  have h0 := barPoint_nonneg ts.player
  have hl := barPoint_toNat_lt ts.player hlen
  unfold barAdd
  dsimp only
  cases hbg : bgetI b (getBarPoint ts.player) with
  | none =>
    rw [countOn_bsetI _ q h0 hl, hbg]
    simp only [contrib]
    by_cases hq : ts.player = q
    · rw [if_pos hq]; omega
    · rw [if_neg hq]; omega
  | some barStack =>
    have hbp : barStack.player = ts.player := by
      rcases barPoint_cases ts.player with h | h
      · rw [h] at hbg
        have hw : ts.player = .white := by
          cases hp : ts.player
          · rfl
          · rw [hp] at h; exact absurd h (by decide)
        rw [hbars.1 barStack hbg, hw]
      · rw [h] at hbg
        have hb2 : ts.player = .black := by
          cases hp : ts.player
          · rw [hp] at h; exact absurd h (by decide)
          · rfl
        rw [hbars.2 barStack hbg, hb2]
    rw [countOn_bsetI _ q h0 hl, hbg]
    simp only [contrib]
    rw [hbp]
    by_cases hq : ts.player = q
    · simp only [if_pos hq]; omega
    · simp only [if_neg hq]; omega

theorem stacksPositive_bsetI {b : BoardState} {i : Int} {v : Option CheckerStack}
    (hpos : stacksPositive b) (h0 : 0 ≤ i) (hl : i.toNat < b.length)
    (hv : ∀ cs, v = some cs → 1 ≤ cs.count) : stacksPositive (bsetI b i v) := by
  intro j cs hj
  by_cases hij : i = j
  · subst hij
    rw [bgetI_bsetI_self v h0 hl] at hj
    exact hv cs hj
  · rw [bgetI_bsetI_ne b v hij] at hj
    exact hpos j cs hj

theorem barsOwned_bsetI_mid {b : BoardState} {i : Int} (v : Option CheckerStack)
    (hbars : barsOwned b) (h1 : 1 ≤ i) (h24 : i ≤ 24) : barsOwned (bsetI b i v) := by
  constructor
  · intro cs h
    rw [bgetI_bsetI_ne b v (by omega)] at h
    exact hbars.1 cs h
  · intro cs h
    rw [bgetI_bsetI_ne b v (by omega)] at h
    exact hbars.2 cs h

theorem stacksPositive_decSrc {b : BoardState} {fromPt : Int} {fs : CheckerStack}
    (h : bgetI b fromPt = some fs) (hpos : stacksPositive b) :
    stacksPositive (decSrc b fromPt fs) := by
  intro j cs hj
  by_cases hf : fromPt = j
  · subst hf
    rw [bgetI_decSrc_self h] at hj
    split at hj
    · exact Option.noConfusion hj
    · rename_i hc
      cases Option.some.inj hj
      have := hpos _ _ h
      show 1 ≤ fs.count - 1
      omega
  · rw [bgetI_decSrc_ne b fs hf] at hj
    exact hpos j cs hj

theorem barsOwned_decSrc {b : BoardState} {fromPt : Int} {fs : CheckerStack}
    (h : bgetI b fromPt = some fs) (hbars : barsOwned b) :
    barsOwned (decSrc b fromPt fs) := by
  constructor
  · intro cs hc
    by_cases hf : fromPt = 0
    · subst hf
      rw [bgetI_decSrc_self h] at hc
      split at hc
      · exact Option.noConfusion hc
      · cases Option.some.inj hc
        exact hbars.1 fs h
    · rw [bgetI_decSrc_ne b fs hf] at hc
      exact hbars.1 cs hc
  · intro cs hc
    by_cases hf : fromPt = 25
    · subst hf
      rw [bgetI_decSrc_self h] at hc
      split at hc
      · exact Option.noConfusion hc
      · cases Option.some.inj hc
        exact hbars.2 fs h
    · rw [bgetI_decSrc_ne b fs hf] at hc
      exact hbars.2 cs hc

theorem blockedSlot_decSrc {b : BoardState} {fromPt : Int} {fs : CheckerStack} {p : Player}
    (h : bgetI b fromPt = some fs) (hp : fs.player = p) (pt : Int) :
    blockedSlot (bgetI (decSrc b fromPt fs) pt) p = blockedSlot (bgetI b pt) p := by
  by_cases hf : fromPt = pt
  · subst hf
    rw [bgetI_decSrc_self h, h]
    split
    · simp [blockedSlot, hp]
    · simp [blockedSlot, hp]
  · rw [bgetI_decSrc_ne b fs hf]

theorem stacksPositive_barAdd {b : BoardState} (ts : CheckerStack)
    (hlen : b.length = 26) (hpos : stacksPositive b) : stacksPositive (barAdd b ts) := by
  have h0 := barPoint_nonneg ts.player
  have hl := barPoint_toNat_lt ts.player hlen
  unfold barAdd
  dsimp only
  cases hbg : bgetI b (getBarPoint ts.player) with
  | none =>
    apply stacksPositive_bsetI hpos h0 hl
    intro cs hc
    cases Option.some.inj hc
    show (1 : Int) ≤ 1
    omega
  | some barStack =>
    apply stacksPositive_bsetI hpos h0 hl
    intro cs hc
    cases Option.some.inj hc
    have := hpos _ _ hbg
    show 1 ≤ barStack.count + 1
    omega

theorem barsOwned_barAdd {b : BoardState} (ts : CheckerStack)
    (hlen : b.length = 26) (hbars : barsOwned b) : barsOwned (barAdd b ts) := by
  have h0 := barPoint_nonneg ts.player
  have hl := barPoint_toNat_lt ts.player hlen
  unfold barAdd
  dsimp only
  cases hpt : ts.player with
  | white =>
    rw [hpt] at h0 hl
    have hbp : getBarPoint Player.white = 0 := rfl
    rw [hbp] at h0 hl ⊢
    cases hbg : bgetI b 0 with
    | none =>
      constructor
      · intro cs hc
        rw [bgetI_bsetI_self _ h0 hl] at hc
        cases Option.some.inj hc
        rfl
      · intro cs hc
        rw [bgetI_bsetI_ne b _ (by omega)] at hc
        exact hbars.2 cs hc
    | some barStack =>
      constructor
      · intro cs hc
        rw [bgetI_bsetI_self _ h0 hl] at hc
        cases Option.some.inj hc
        exact hbars.1 barStack hbg
      · intro cs hc
        rw [bgetI_bsetI_ne b _ (by omega)] at hc
        exact hbars.2 cs hc
  | black =>
    rw [hpt] at h0 hl
    have hbp : getBarPoint Player.black = 25 := rfl
    rw [hbp] at h0 hl ⊢
    cases hbg : bgetI b 25 with
    | none =>
      constructor
      · intro cs hc
        rw [bgetI_bsetI_ne b _ (by omega)] at hc
        exact hbars.1 cs hc
      · intro cs hc
        rw [bgetI_bsetI_self _ h0 hl] at hc
        cases Option.some.inj hc
        rfl
    | some barStack =>
      constructor
      · intro cs hc
        rw [bgetI_bsetI_ne b _ (by omega)] at hc
        exact hbars.1 cs hc
      · intro cs hc
        rw [bgetI_bsetI_self _ h0 hl] at hc
        cases Option.some.inj hc
        exact hbars.2 barStack hbg

theorem length_applyMove (b : BoardState) (fromPt toPt : Int) (p : Player) :
    (applyMoveToBoard b fromPt toPt p).2.length = b.length := by
  cases hfs : bgetI b fromPt with
  | none => rw [applyMove_eq_fromNone toPt p hfs]
  | some fs =>
    by_cases hbad : fs.player ≠ p ∨ fs.count = 0
    · rw [applyMove_eq_fromBad toPt hfs hbad]
    · rw [applyMove_eq_main toPt hfs hbad]
      cases hts : bgetI (decSrc b fromPt fs) toPt with
      | none =>
        dsimp only
        rw [length_bsetI, length_decSrc]
      | some ts =>
        dsimp only
        by_cases hop : ts.player ≠ p
        · rw [if_pos hop]
          by_cases hone : ts.count = 1
          · rw [if_pos hone]
            dsimp only
            rw [length_bsetI, length_bsetI, length_barAdd, length_decSrc]
          · rw [if_neg hone]
            dsimp only
            rw [length_decSrc]
        · rw [if_neg hop]
          dsimp only
          rw [length_bsetI, length_decSrc]

/-- During the mover's turn the blocked status of every point 1..24 is
unchanged by applyMoveToBoard, in every branch including the failing
ones: the mover only shrinks its own stacks, occupies unblocked slots
and sends lone opposing checkers to the bar slots 0 and 25. -/
theorem applyMove_blocked_equiv {b : BoardState} (fromPt toPt : Int) (p : Player)
    (hlen : b.length = 26) (pt : Int) (h1 : 1 ≤ pt) (h24 : pt ≤ 24) :
    blockedSlot (bgetI (applyMoveToBoard b fromPt toPt p).2 pt) p =
      blockedSlot (bgetI b pt) p := by
  cases hfs : bgetI b fromPt with
  | none => rw [applyMove_eq_fromNone toPt p hfs]
  | some fs =>
    by_cases hbad : fs.player ≠ p ∨ fs.count = 0
    · rw [applyMove_eq_fromBad toPt hfs hbad]
    · rw [applyMove_eq_main toPt hfs hbad]
      push_neg at hbad
      obtain ⟨hp, -⟩ := hbad
      cases hts : bgetI (decSrc b fromPt fs) toPt with
      | none =>
        dsimp only
        by_cases hpt : toPt = pt
        · rw [hpt] at hts ⊢
          rw [bgetI_bsetI_self _ (by omega) (by rw [length_decSrc]; omega)]
          rw [← blockedSlot_decSrc hfs hp pt, hts]
          simp [blockedSlot]
        · rw [bgetI_bsetI_ne _ _ hpt]
          exact blockedSlot_decSrc hfs hp pt
      | some ts =>
        dsimp only
        by_cases hop : ts.player ≠ p
        · by_cases hone : ts.count = 1
          · rw [if_pos hop, if_pos hone]
            dsimp only
            by_cases hpt : toPt = pt
            · rw [hpt] at hts ⊢
              have hlenB :
                  (bsetI (barAdd (decSrc b fromPt fs) ts) pt none).length = 26 := by
                rw [length_bsetI, length_barAdd, length_decSrc, hlen]
              rw [bgetI_bsetI_self _ (by omega) (by rw [hlenB]; omega)]
              rw [← blockedSlot_decSrc hfs hp pt, hts]
              simp [blockedSlot, hone]
            · rw [bgetI_bsetI_ne _ _ hpt, bgetI_bsetI_ne _ _ hpt,
                bgetI_barAdd_ne _ _ h1 h24]
              exact blockedSlot_decSrc hfs hp pt
          · rw [if_pos hop, if_neg hone]
            exact blockedSlot_decSrc hfs hp pt
        · rw [if_neg hop]
          push_neg at hop
          dsimp only
          by_cases hpt : toPt = pt
          · rw [hpt] at hts ⊢
            rw [bgetI_bsetI_self _ (by omega) (by rw [length_decSrc]; omega)]
            rw [← blockedSlot_decSrc hfs hp pt, hts]
            simp [blockedSlot, hop]
          · rw [bgetI_bsetI_ne _ _ hpt]
            exact blockedSlot_decSrc hfs hp pt

/-- On an unblocked destination in 1..24, applyMoveToBoard preserves the
structural board invariants and the per-player checker counts: a moved
checker leaves its source and lands on the destination, and a hit
checker moves from the destination to its owner's bar. -/
theorem applyMove_preserve {b : BoardState} (fromPt toPt : Int) (p : Player)
    (hlen : b.length = 26) (hpos : stacksPositive b) (hbars : barsOwned b)
    (hto1 : 1 ≤ toPt) (hto24 : toPt ≤ 24)
    (hnb : blockedSlot (bgetI b toPt) p = false) :
    stacksPositive (applyMoveToBoard b fromPt toPt p).2 ∧
    barsOwned (applyMoveToBoard b fromPt toPt p).2 ∧
    (∀ q, countCheckersOnBoard (applyMoveToBoard b fromPt toPt p).2 q =
      countCheckersOnBoard b q) := by
  cases hfs : bgetI b fromPt with
  | none =>
    rw [applyMove_eq_fromNone toPt p hfs]
    exact ⟨hpos, hbars, fun q => rfl⟩
  | some fs =>
    by_cases hbad : fs.player ≠ p ∨ fs.count = 0
    · rw [applyMove_eq_fromBad toPt hfs hbad]
      exact ⟨hpos, hbars, fun q => rfl⟩
    · rw [applyMove_eq_main toPt hfs hbad]
      push_neg at hbad
      obtain ⟨hp, hc0⟩ := hbad
      have hpos1 := stacksPositive_decSrc hfs hpos
      have hbars1 := barsOwned_decSrc hfs hbars
      have hlen1 : (decSrc b fromPt fs).length = 26 := by rw [length_decSrc, hlen]
      cases hts : bgetI (decSrc b fromPt fs) toPt with
      | none =>
        dsimp only
        refine ⟨?_, ?_, ?_⟩
        · exact stacksPositive_bsetI hpos1 (by omega) (by rw [hlen1]; omega)
            (by intro cs hc; cases Option.some.inj hc; show (1 : Int) ≤ 1; omega)
        · exact barsOwned_bsetI_mid _ hbars1 hto1 hto24
        · intro q
          rw [countOn_bsetI _ q (by omega) (by rw [hlen1]; omega), hts,
            countOn_decSrc hfs q]
          simp only [contrib]
          rw [hp]
          by_cases hq : p = q
          · simp only [if_pos hq]; omega
          · simp only [if_neg hq]; omega
      | some ts =>
        dsimp only
        by_cases hop : ts.player ≠ p
        · by_cases hone : ts.count = 1
          · rw [if_pos hop, if_pos hone]
            dsimp only
            have hlenA : (barAdd (decSrc b fromPt fs) ts).length = 26 := by
              rw [length_barAdd, hlen1]
            have hposA := stacksPositive_barAdd ts hlen1 hpos1
            have hbarsA := barsOwned_barAdd ts hlen1 hbars1
            have hgetA : bgetI (barAdd (decSrc b fromPt fs) ts) toPt = some ts := by
              rw [bgetI_barAdd_ne _ _ hto1 hto24, hts]
            have hlenB :
                (bsetI (barAdd (decSrc b fromPt fs) ts) toPt none).length = 26 := by
              rw [length_bsetI, hlenA]
            have hposB : stacksPositive (bsetI (barAdd (decSrc b fromPt fs) ts) toPt none) :=
              stacksPositive_bsetI hposA (by omega)
                (by rw [hlenA]; omega) (by intro cs hc; simp at hc)
            have hbarsB := barsOwned_bsetI_mid none hbarsA hto1 hto24
            have hgetB : bgetI (bsetI (barAdd (decSrc b fromPt fs) ts) toPt none) toPt =
                none := bgetI_bsetI_self _ (by omega) (by rw [hlenA]; omega)
            refine ⟨?_, ?_, ?_⟩
            · exact stacksPositive_bsetI hposB (by omega) (by rw [hlenB]; omega)
                (by intro cs hc; cases Option.some.inj hc; show (1 : Int) ≤ 1; omega)
            · exact barsOwned_bsetI_mid _ hbarsB hto1 hto24
            · intro q
              rw [countOn_bsetI _ q (by omega) (by rw [hlenB]; omega), hgetB,
                countOn_bsetI _ q (by omega) (by rw [hlenA]; omega), hgetA,
                countOn_barAdd ts q hlen1 hbars1, countOn_decSrc hfs q]
              simp only [contrib]
              rw [hp, hone]
              by_cases hq1 : p = q <;> by_cases hq2 : ts.player = q <;>
                simp only [if_pos, if_neg, hq1, hq2, ite_true, ite_false] <;>
                omega
          · exfalso
            have h2 : 2 ≤ ts.count := by
              have := hpos1 _ _ hts
              omega
            have hbt : blockedSlot (bgetI b toPt) p = true := by
              rw [← blockedSlot_decSrc hfs hp toPt, hts]
              simp only [blockedSlot, decide_eq_true_eq]
              exact ⟨hop, h2⟩
            rw [hnb] at hbt
            exact Bool.noConfusion hbt
        · rw [if_neg hop]
          push_neg at hop
          dsimp only
          refine ⟨?_, ?_, ?_⟩
          · refine stacksPositive_bsetI hpos1 (by omega) (by rw [hlen1]; omega) ?_
            intro cs hc
            cases Option.some.inj hc
            have := hpos1 _ _ hts
            show 1 ≤ ts.count + 1
            omega
          · exact barsOwned_bsetI_mid _ hbars1 hto1 hto24
          · intro q
            rw [countOn_bsetI _ q (by omega) (by rw [hlen1]; omega), hts,
              countOn_decSrc hfs q]
            simp only [contrib]
            rw [hp, hop]
            by_cases hq : p = q
            · simp only [if_pos hq]; omega
            · simp only [if_neg hq]; omega

theorem toBoardCoord_eq_ppb (p : Player) (t : Int) :
    toBoardCoord p t = playerPointToBoardPoint t p := by
  unfold toBoardCoord playerPointToBoardPoint
  split_ifs <;> omega

theorem canMoveTo_destOK {b : BoardState} {pt : Int} {p : Player}
    (h : canMoveTo b pt p = true) :
    1 ≤ pt ∧ pt ≤ 24 ∧ blockedSlot (bgetI b pt) p = false := by
  unfold canMoveTo at h
  split at h
  · exact Bool.noConfusion h
  · rename_i hrange
    push_neg at hrange
    refine ⟨by omega, by omega, ?_⟩
    have hblk : isPointBlocked b pt p = false := by
      cases hb : isPointBlocked b pt p
      · rfl
      · rw [hb] at h; exact Bool.noConfusion h
    unfold isPointBlocked at hblk
    rw [if_neg (show ¬ (pt < 0 ∨ pt > 25) by omega)] at hblk
    cases hbb : bgetI b pt <;> rw [hbb] at hblk <;> exact hblk

/-- Every candidate move emitted by the generator either bears off or
targets a point that canMoveTo accepts on the generation board. -/
theorem generateMovesForDie_destOK {b : BoardState} {p : Player} {die : Nat} {m : Move}
    (hm : m ∈ generateMovesForDie b p die) :
    m.toP = -1 ∨ canMoveTo b (toBoardCoord p m.toP) p = true := by
  rw [toBoardCoord_eq_ppb]
  unfold generateMovesForDie at hm
  split at hm
  · repeat' split at hm
    all_goals simp at hm
    all_goals first
      | (subst hm; left; rfl)
      | (subst hm; right; assumption)
      | (obtain ⟨hc, hm⟩ := hm; subst hm; left; rfl)
      | (obtain ⟨hm, hc⟩ := hm; subst hm; left; rfl)
      | (obtain ⟨hc, hm⟩ := hm; subst hm; right; exact hc)
      | (obtain ⟨hm, hc⟩ := hm; subst hm; right; exact hc)
  · simp only [List.mem_flatMap, List.mem_range] at hm
    obtain ⟨k, _, hmem⟩ := hm
    repeat' split at hmem
    all_goals simp at hmem
    all_goals first
      | (subst hmem; left; rfl)
      | (subst hmem; right; assumption)
      | (obtain ⟨hc, hmem⟩ := hmem; subst hmem; left; rfl)
      | (obtain ⟨hmem, hc⟩ := hmem; subst hmem; left; rfl)
      | (obtain ⟨hc, hmem⟩ := hmem; subst hmem; right; exact hc)
      | (obtain ⟨hmem, hc⟩ := hmem; subst hmem; right; exact hc)

/-- A successful search step keeps the board length and the blocked
status of every point 1..24. -/
theorem tryApplyGen_equiv {p : Player} {b : BoardState} {m : Move} {b1 : BoardState}
    {m1 : Move} (hlen : b.length = 26) (h : tryApplyGen p b m = some (b1, m1)) :
    b1.length = 26 ∧ ∀ pt, 1 ≤ pt → pt ≤ 24 →
      blockedSlot (bgetI b1 pt) p = blockedSlot (bgetI b pt) p := by
  unfold tryApplyGen at h
  dsimp only at h
  split at h
  · cases hfs : bgetI b (fromBoardCoord p m.fromP) with
    | none => rw [hfs] at h; exact Option.noConfusion h
    | some fs =>
      rw [hfs] at h
      dsimp only at h
      split at h
      · rename_i hcond
        have hpair := Option.some.inj h
        rw [Prod.mk.injEq] at hpair
        obtain ⟨hb, -⟩ := hpair
        subst hb
        constructor
        · show (decSrc b (fromBoardCoord p m.fromP) fs).length = 26
          rw [length_decSrc, hlen]
        · intro pt h1 h24
          exact blockedSlot_decSrc hfs hcond.1 pt
      · exact Option.noConfusion h
  · split at h
    · have hpair := Option.some.inj h
      rw [Prod.mk.injEq] at hpair
      obtain ⟨hb, -⟩ := hpair
      subst hb
      refine ⟨by rw [length_applyMove, hlen], fun pt a c => ?_⟩
      exact applyMove_blocked_equiv _ _ p hlen pt a c
    · exact Option.noConfusion h

/-- Every move of a play sequence has a safe destination relative to the
starting board: it was generated against some intermediate board, and
blocked statuses at 1..24 are invariant along the play. -/
theorem PlaySeq_destOK {p : Player} {b : BoardState} {dice : List Nat}
    {T : List Move} {bf : BoardState} {df : List Nat}
    (hT : PlaySeq p b dice T bf df) (hlen : b.length = 26) :
    ∀ m ∈ T, MoveDestOK p b m := by
  revert hlen
  induction hT with
  | nil b0 d0 =>
    intro hlen m hm
    simp at hm
  | cons b0 dice0 i m0 b1 m1 rest b2 d2 hi hm0 ha hrest ih =>
    intro hlen mm hmm
    obtain ⟨hlen1, hequiv⟩ := tryApplyGen_equiv hlen ha
    rcases List.mem_cons.mp hmm with rfl | hmem
    · have hto : mm.toP = m0.toP := (tryApplyGen_move_eq ha).2.1
      rcases generateMovesForDie_destOK hm0 with hbear | hcan
      · exact Or.inl (by rw [hto, hbear])
      · obtain ⟨a1, a24, ablk⟩ := canMoveTo_destOK hcan
        refine Or.inr ⟨?_, ?_, ?_⟩
        · rw [hto]; exact a1
        · rw [hto]; exact a24
        · rw [hto]; exact ablk
    · have hdest := ih hlen1 mm hmem
      rcases hdest with hbear | ⟨a1, a24, ablk⟩
      · exact Or.inl hbear
      · exact Or.inr ⟨a1, a24, (hequiv _ a1 a24).symm.trans ablk⟩

theorem insertMove_perm (m : Move) (l : List Move) : (insertMove m l).Perm (m :: l) := by
  induction l with
  | nil => exact List.Perm.refl _
  | cons a t ih =>
    unfold insertMove
    split
    · exact List.Perm.refl _
    · exact (ih.cons a).trans (List.Perm.swap m a t)

theorem sortMoves_perm (l : List Move) : (sortMoves l).Perm l := by
  induction l with
  | nil => exact List.Perm.refl _
  | cons a t ih => exact (insertMove_perm a (sortMoves t)).trans (ih.cons a)

theorem zip_all_proj : ∀ (l1 l2 : List Move), l1.length = l2.length →
    (l1.zip l2).all (fun ab =>
      decide (ab.1.fromP = ab.2.fromP ∧ ab.1.toP = ab.2.toP ∧ ab.1.die = ab.2.die)) = true →
    ∀ m ∈ l2, ∃ m0 ∈ l1, m0.fromP = m.fromP ∧ m0.toP = m.toP ∧ m0.die = m.die := by
  intro l1
  induction l1 with
  | nil =>
    intro l2 hl hall m hm
    cases l2 with
    | nil => simp at hm
    | cons b2 t2 => simp at hl
  | cons a t ih =>
    intro l2 hl hall m hm
    cases l2 with
    | nil => simp at hm
    | cons b2 t2 =>
      simp only [List.zip_cons_cons, List.all_cons, Bool.and_eq_true,
        decide_eq_true_eq] at hall
      rcases List.mem_cons.mp hm with rfl | hm2
      · exact ⟨a, List.mem_cons_self a t, hall.1⟩
      · obtain ⟨m0, hm0, he⟩ := ih t2 (by simpa using hl) hall.2 m hm2
        exact ⟨m0, List.mem_cons_of_mem a hm0, he⟩

/-- movesEqual only compares the (from, to, die) keys of the sorted
copies, so every move of an accepted sequence shares its keys with some
move of the reference sequence. -/
theorem movesEqual_mem {S0 S : List Move} (h : movesEqual S0 S = true) :
    ∀ m ∈ S, ∃ m0 ∈ S0, m0.fromP = m.fromP ∧ m0.toP = m.toP ∧ m0.die = m.die := by
  unfold movesEqual at h
  split at h
  · exact Bool.noConfusion h
  · rename_i hlen
    dsimp only at h
    intro m hm
    have hm2 : m ∈ sortMoves S := ((sortMoves_perm S).mem_iff).mpr hm
    have hlen2 : (sortMoves S0).length = (sortMoves S).length := by
      rw [(sortMoves_perm S0).length_eq, (sortMoves_perm S).length_eq]
      exact not_not.mp hlen
    obtain ⟨m0, hm0, he⟩ := zip_all_proj (sortMoves S0) (sortMoves S) hlen2 h m hm2
    exact ⟨m0, ((sortMoves_perm S0).mem_iff).mp hm0, he⟩

/-- The application loop preserves the structural board invariants and
conserves each player's board-plus-off checker total, provided every
move's destination was safe at the turn's starting board `b0` and the
loop board agrees with `b0` on blocked statuses. -/
theorem applyLoop_preserve (p : Player) (b0 : BoardState) :
    ∀ (T : List Move) (st st' : ApplyLoopState),
      applyValidatedMoves p T st = some st' →
      st.board.length = 26 → stacksPositive st.board → barsOwned st.board →
      (∀ pt, 1 ≤ pt → pt ≤ 24 →
        blockedSlot (bgetI st.board pt) p = blockedSlot (bgetI b0 pt) p) →
      (∀ m ∈ T, MoveDestOK p b0 m) →
      st'.board.length = 26 ∧ stacksPositive st'.board ∧ barsOwned st'.board ∧
      (∀ q, countCheckersOnBoard st'.board q + offLoop st' q =
        countCheckersOnBoard st.board q + offLoop st q) := by
  intro T
  induction T with
  | nil =>
    intro st st' h hlen hpos hbars hequiv hdest
    cases Option.some.inj h
    exact ⟨hlen, hpos, hbars, fun q => rfl⟩
  | cons m t ih =>
    intro st st' h hlen hpos hbars hequiv hdest
    simp only [applyValidatedMoves] at h
    by_cases hcont : st.unusedDice.contains m.die = true
    case neg => rw [if_neg hcont] at h; exact Option.noConfusion h
    case pos =>
      rw [if_pos hcont] at h
      by_cases htp : m.toP = -1
      · rw [if_pos htp] at h
        cases hfs : bgetI st.board (fromBoardCoord p m.fromP) with
        | none =>
          rw [hfs] at h
          dsimp only at h
          obtain ⟨l1, p1, b1', c1⟩ := ih _ _ h hlen hpos hbars hequiv
            (fun mm hmm => hdest mm (List.mem_cons_of_mem m hmm))
          exact ⟨l1, p1, b1', fun q => by rw [c1 q]; rfl⟩
        | some fs =>
          rw [hfs] at h
          dsimp only at h
          by_cases hfp : fs.player = p
          · rw [if_pos hfp] at h
            rw [show (if fs.count - 1 = 0 then
                  bsetI st.board (fromBoardCoord p m.fromP) none
                else bsetI st.board (fromBoardCoord p m.fromP)
                  (some ⟨fs.player, fs.count - 1⟩)) =
                decSrc st.board (fromBoardCoord p m.fromP) fs from rfl] at h
            obtain ⟨l1, p1, b1', c1⟩ := ih _ _ h
              (by show (decSrc st.board (fromBoardCoord p m.fromP) fs).length = 26
                  rw [length_decSrc]; exact hlen)
              (stacksPositive_decSrc hfs hpos)
              (barsOwned_decSrc hfs hbars)
              (fun pt a c => (blockedSlot_decSrc hfs hfp pt).trans (hequiv pt a c))
              (fun mm hmm => hdest mm (List.mem_cons_of_mem m hmm))
            refine ⟨l1, p1, b1', fun q => ?_⟩
            rw [c1 q]
            show countCheckersOnBoard (decSrc st.board (fromBoardCoord p m.fromP) fs) q +
                offLoop ⟨decSrc st.board (fromBoardCoord p m.fromP) fs,
                  st.unusedDice.erase m.die,
                  if p = .white then st.whiteOff + 1 else st.whiteOff,
                  if p = .black then st.blackOff + 1 else st.blackOff⟩ q =
              countCheckersOnBoard st.board q + offLoop st q
            rw [countOn_decSrc hfs q, hfp]
            cases p <;> cases q <;> simp [offLoop] <;> omega
          · rw [if_neg hfp] at h
            obtain ⟨l1, p1, b1', c1⟩ := ih _ _ h hlen hpos hbars hequiv
              (fun mm hmm => hdest mm (List.mem_cons_of_mem m hmm))
            exact ⟨l1, p1, b1', fun q => by rw [c1 q]; rfl⟩
      · rw [if_neg htp] at h
        rcases hdest m (List.mem_cons_self m t) with hbear | ⟨a1, a24, ablk0⟩
        · exact absurd hbear htp
        · have hblk : blockedSlot (bgetI st.board (toBoardCoord p m.toP)) p = false := by
            rw [hequiv _ a1 a24]; exact ablk0
          obtain ⟨hpos2, hbars2, hcnt2⟩ :=
            applyMove_preserve (fromBoardCoord p m.fromP) (toBoardCoord p m.toP) p
              hlen hpos hbars a1 a24 hblk
          obtain ⟨l1, p1, b1', c1⟩ := ih _ _ h
            (by rw [show ((⟨(applyMoveToBoard st.board (fromBoardCoord p m.fromP)
                    (toBoardCoord p m.toP) p).2, st.unusedDice.erase m.die,
                  st.whiteOff, st.blackOff⟩ : ApplyLoopState)).board =
                (applyMoveToBoard st.board (fromBoardCoord p m.fromP)
                  (toBoardCoord p m.toP) p).2 from rfl, length_applyMove]
                exact hlen)
            hpos2 hbars2
            (fun pt a c =>
              (applyMove_blocked_equiv _ _ p hlen pt a c).trans (hequiv pt a c))
            (fun mm hmm => hdest mm (List.mem_cons_of_mem m hmm))
          refine ⟨l1, p1, b1', fun q => ?_⟩
          rw [c1 q]
          show countCheckersOnBoard (applyMoveToBoard st.board (fromBoardCoord p m.fromP)
                (toBoardCoord p m.toP) p).2 q +
              offLoop ⟨(applyMoveToBoard st.board (fromBoardCoord p m.fromP)
                (toBoardCoord p m.toP) p).2, st.unusedDice.erase m.die,
                st.whiteOff, st.blackOff⟩ q =
            countCheckersOnBoard st.board q + offLoop st q
          rw [hcnt2 q]
          rfl

/-- The validator's result state keeps the structural board invariants
and the per-player checker totals of its input state. -/
theorem validate_newState_inv (s : GameState) (mv : List Move) (ns0 : GameState)
    (h : (validateAndApplyMoves s mv).newState = some ns0) (hinv : stateInv s) :
    stateInv ns0 := by
  unfold validateAndApplyMoves at h
  by_cases hph : s.phase ≠ .moving
  · rw [if_pos hph] at h; exact Option.noConfusion h
  · rw [if_neg hph] at h
    by_cases hde : s.unusedDice.isEmpty = true
    · rw [if_pos hde] at h; exact Option.noConfusion h
    · rw [if_neg hde] at h
      by_cases hme : mv.isEmpty = true
      · rw [if_pos hme] at h
        split at h
        · cases Option.some.inj h
          exact hinv
        · exact Option.noConfusion h
      · rw [if_neg hme] at h
        dsimp only at h
        by_cases hany : (getLegalMoves s).any (fun seq => movesEqual seq mv) = true
        case neg => rw [if_neg hany] at h; exact Option.noConfusion h
        case pos =>
          rw [if_pos hany] at h
          obtain ⟨S0, hS0mem, hS0eq⟩ := List.any_eq_true.mp hany
          have hphase : s.phase = .moving := not_not.mp hph
          have hS0 : S0 ∈ generateAllPossibleMoveSequences s.board s.currentPlayer
              s.unusedDice := by
            unfold getLegalMoves at hS0mem
            rwa [if_neg (not_or.mpr ⟨hph, hde⟩)] at hS0mem
          obtain ⟨hraw, -⟩ := generateAll_mem_max _ _ _ S0 hS0
          obtain ⟨-, T, bf, df, hST, hplay, -⟩ :=
            searchAux_sound s.currentPlayer s.unusedDice.length s.board s.unusedDice
              [] S0 rfl hraw
          simp only [List.nil_append] at hST
          subst hST
          have hlen26 : s.board.length = 26 := hinv.1.1
          have hdm : ∀ m ∈ mv, MoveDestOK s.currentPlayer s.board m := by
            intro m hm
            obtain ⟨m0, hm0, -, hte, -⟩ := movesEqual_mem hS0eq m hm
            rcases PlaySeq_destOK hplay hlen26 m0 hm0 with hb | ⟨a1, a24, ablk⟩
            · exact Or.inl (by rw [← hte]; exact hb)
            · exact Or.inr ⟨by rw [← hte]; exact a1, by rw [← hte]; exact a24,
                by rw [← hte]; exact ablk⟩
          cases hx : applyValidatedMoves s.currentPlayer mv
              ⟨s.board, s.unusedDice, s.whiteOff, s.blackOff⟩ with
          | none => rw [hx] at h; exact Option.noConfusion h
          | some st =>
            rw [hx] at h
            dsimp only at h
            cases Option.some.inj h
            obtain ⟨l1, p1, b1', c1⟩ := applyLoop_preserve s.currentPlayer s.board mv _ _
              hx hlen26 hinv.1.2.1 hinv.1.2.2 (fun pt a c => rfl) hdm
            refine ⟨⟨l1, p1, b1'⟩, ?_⟩
            intro q
            have hc := c1 q
            have h15 := hinv.2 q
            cases q <;> simp [offOf, offLoop] at hc h15 ⊢ <;> omega

theorem makeMove_newState_cases (f1 f2 : Dice) (s : GameState) (mv : List Move)
    (s' : GameState) (h : (makeMove f1 f2 s mv).newState = some s') :
    ∃ ns0, (validateAndApplyMoves s mv).newState = some ns0 ∧
      (s' = ns0 ∨ s' = completeTurn f1 f2 s mv ns0) := by
  unfold makeMove at h
  dsimp only at h
  by_cases hv : (validateAndApplyMoves s mv).valid = false
  · rw [if_pos hv] at h
    exact ⟨s', h, Or.inl rfl⟩
  · rw [if_neg hv] at h
    cases hn : (validateAndApplyMoves s mv).newState with
    | none =>
      rw [hn] at h
      dsimp only at h
      rw [hn] at h
      exact Option.noConfusion h
    | some ns0 =>
      rw [hn] at h
      dsimp only at h
      refine ⟨ns0, rfl, ?_⟩
      split at h
      · cases Option.some.inj h
        exact Or.inr rfl
      · rw [hn] at h
        cases Option.some.inj h
        exact Or.inl rfl

theorem stateInv_of_fields {s s' : GameState} (hb : s'.board = s.board)
    (hw : s'.whiteOff = s.whiteOff) (hbk : s'.blackOff = s.blackOff)
    (hinv : stateInv s) : stateInv s' := by
  refine ⟨by rw [hb]; exact hinv.1, ?_⟩
  intro q
  have h15 := hinv.2 q
  unfold offOf at h15 ⊢
  rw [hb, hw, hbk]
  exact h15

/-- A successful makeMove keeps the invariant: the validator's state
does, and completeTurn only touches history, winner and scoring
fields. -/
theorem makeMove_inv {f1 f2 : Dice} {s : GameState} {mv : List Move} {s' : GameState}
    (h : (makeMove f1 f2 s mv).newState = some s') (hinv : stateInv s) : stateInv s' := by
  obtain ⟨ns0, hn, hcase⟩ := makeMove_newState_cases f1 f2 s mv s' h
  have hinv0 := validate_newState_inv s mv ns0 hn hinv
  rcases hcase with rfl | rfl
  · exact hinv0
  · obtain ⟨hb, hw, hbk, -⟩ := completeTurn_shape f1 f2 s mv ns0
    exact stateInv_of_fields hb hw hbk hinv0

theorem rollForFirst_fields {wd bd : Nat} {rp c : Bool} {s s' : GameState}
    (h : rollForFirst wd bd rp c s = .ok s') :
    s'.board = s.board ∧ s'.whiteOff = s.whiteOff ∧ s'.blackOff = s.blackOff := by
  unfold rollForFirst at h
  repeat' (first | (dsimp only at h) | split at h)
  all_goals first
    | exact Except.noConfusion h
    | (cases Except.ok.inj h; exact ⟨rfl, rfl, rfl⟩)

theorem rollTurn_fields {cd od : Dice} {s s' : GameState}
    (h : rollTurn cd od s = .ok s') :
    s'.board = s.board ∧ s'.whiteOff = s.whiteOff ∧ s'.blackOff = s.blackOff := by
  unfold rollTurn at h
  repeat' (first | (dsimp only at h) | split at h)
  all_goals first
    | exact Except.noConfusion h
    | (cases Except.ok.inj h; exact ⟨rfl, rfl, rfl⟩)

theorem respondToDouble_fields (s : GameState) (a : Bool) :
    (respondToDouble s a).board = s.board ∧
    (respondToDouble s a).whiteOff = s.whiteOff ∧
    (respondToDouble s a).blackOff = s.blackOff := by
  unfold respondToDouble
  repeat' (first | (dsimp only) | split)
  all_goals exact ⟨rfl, rfl, rfl⟩

theorem createGame_fields {cfg : GameConfig} {s : GameState}
    (h : createGame cfg = .ok s) :
    s.board = createInitialBoard ∧ s.whiteOff = 0 ∧ s.blackOff = 0 := by
  unfold createGame at h
  repeat' (first | (dsimp only at h) | split at h)
  all_goals first
    | exact Except.noConfusion h
    | (cases Except.ok.inj h; exact ⟨rfl, rfl, rfl⟩)

theorem stacksPositive_of_all {b : BoardState}
    (h : b.all (fun os => match os with
      | some cs => decide (1 ≤ cs.count)
      | none => true) = true) : stacksPositive b := by
  intro i cs hcs
  obtain ⟨h0, hl⟩ := bgetI_some_bounds hcs
  unfold bgetI at hcs
  rw [if_pos h0, List.getD_eq_getElem?_getD, List.getElem?_eq_getElem hl] at hcs
  simp only [Option.getD_some] at hcs
  have hmem : some cs ∈ b := List.mem_iff_getElem.mpr ⟨i.toNat, hl, hcs⟩
  have hall := List.all_eq_true.mp h _ hmem
  simpa using hall

theorem boardInv_initial : boardInv createInitialBoard := by
  refine ⟨by decide, stacksPositive_of_all (by decide), ?_, ?_⟩
  · intro cs hcs
    rw [(by decide : bgetI createInitialBoard 0 = none)] at hcs
    exact Option.noConfusion hcs
  · intro cs hcs
    rw [(by decide : bgetI createInitialBoard 25 = none)] at hcs
    exact Option.noConfusion hcs

theorem countOn_initial :
    ∀ q, countCheckersOnBoard createInitialBoard q = 15 := by
  intro q
  cases q <;> decide

theorem createGame_stateInv {cfg : GameConfig} {s : GameState}
    (h : createGame cfg = .ok s) : stateInv s := by
  obtain ⟨hb, hw, hbk⟩ := createGame_fields h
  refine ⟨by rw [hb]; exact boardInv_initial, ?_⟩
  intro q
  rw [hb]
  cases q <;> simp [offOf, hw, hbk, countOn_initial]

/-- Core invariant: every reachable state has a well formed board and
fifteen checkers per player counting board slots and off counters. -/
theorem Reachable_stateInv {s : GameState} (h : Reachable s) : stateInv s := by
  induction h with
  | created cfg s hc => exact createGame_stateInv hc
  | rolledFirst s wd bd rp c s' hr hrf ih =>
    obtain ⟨hb, hw, hbk⟩ := rollForFirst_fields hrf
    exact stateInv_of_fields hb hw hbk ih
  | rolledTurn s cd od s' hr hrt ih =>
    obtain ⟨hb, hw, hbk⟩ := rollTurn_fields hrt
    exact stateInv_of_fields hb hw hbk ih
  | moved s f1 f2 mv s' hr hm ih => exact makeMove_inv hm ih
  | offered s s' hr ho ih =>
    have hsh := offerDouble_ok_shape ho
    exact stateInv_of_fields (by rw [hsh]) (by rw [hsh]) (by rw [hsh]) ih
  | responded s a hr ih =>
    obtain ⟨hb, hw, hbk⟩ := respondToDouble_fields s a
    exact stateInv_of_fields hb hw hbk ih

theorem sum_map_eq_range (f : Option CheckerStack → Int) :
    ∀ (b : BoardState),
      (b.map f).sum = ((List.range b.length).map (fun n => f (b.getD n none))).sum := by
  intro b
  induction b with
  | nil => rfl
  | cons a t ih =>
    simp only [List.map_cons, List.sum_cons, List.length_cons,
      List.range_succ_eq_map, List.map_map, List.getD_cons_zero]
    rw [ih]
    congr 1

theorem range26_sum_split (f : Nat → Int) :
    ((List.range 26).map f).sum =
      f 0 + ((List.range 24).map (fun k => f (k + 1))).sum + f 25 := by
  have h26 : List.range 26 =
      [0, 1, 2, 3, 4, 5, 6, 7, 8, 9, 10, 11, 12, 13, 14, 15, 16, 17, 18, 19,
        20, 21, 22, 23, 24, 25] := rfl
  have h24 : List.range 24 =
      [0, 1, 2, 3, 4, 5, 6, 7, 8, 9, 10, 11, 12, 13, 14, 15, 16, 17, 18, 19,
        20, 21, 22, 23] := rfl
  rw [h26, h24]
  simp only [List.map_cons, List.map_nil, List.sum_cons, List.sum_nil]
  norm_num
  ring

theorem checkersOnPoints_eq (b : BoardState) (q : Player) : checkersOnPoints b q =
    ((List.range 24).map (fun k : Nat => getCheckerCount b ((k : Int) + 1) q)).sum := by
  unfold checkersOnPoints
  simp only [List.bind_eq_flatMap, List.pure_def]
  have hgen : ∀ (l : List Nat),
      (List.map (fun k : Int => getCheckerCount b (k + 1) q)
        (l.flatMap fun a => [(a : Int)])).sum =
      (l.map (fun k : Nat => getCheckerCount b ((k : Int) + 1) q)).sum := by
    intro l
    induction l with
    | nil => rfl
    | cons a t ih =>
      simp only [List.flatMap_cons, List.singleton_append, List.map_cons,
        List.sum_cons, ih]
  exact hgen (List.range 24)

/-- The 26-slot sum splits as white bar slot, the 24 interior points and
the black bar slot. -/
theorem countOn_split (b : BoardState) (q : Player) (hlen : b.length = 26) :
    countCheckersOnBoard b q =
      contrib (bgetI b 0) q + checkersOnPoints b q + contrib (bgetI b 25) q := by
  have hpoint : ∀ k : Nat, getCheckerCount b ((k : Int) + 1) q =
      contrib (b.getD (k + 1) none) q := by
    intro k
    rw [getCheckerCount_eq_contrib]
    unfold bgetI
    rw [if_pos (by omega)]
    congr 2 <;> try omega
  have hb0 : bgetI b 0 = b.getD 0 none := by
    unfold bgetI
    rw [if_pos (le_refl 0)]
    try rfl
  have hb25 : bgetI b 25 = b.getD 25 none := by
    unfold bgetI
    rw [if_pos (by omega)]
    try rfl
  rw [countOn_eq_map_sum, sum_map_eq_range, hlen,
    range26_sum_split (fun n => contrib (b.getD n none) q), checkersOnPoints_eq]
  rw [List.map_congr_left (fun k hk => hpoint k), hb0, hb25]

set_option maxHeartbeats 1000000

/-- C1: every state reachable from createGame through rollForFirst,
rollTurn, makeMove, offerDouble and respondToDouble has, for each
player, fifteen checkers counting points 1..24, that player's bar and
that player's off counter. -/
theorem claim_C1_checker_conservation {s : GameState} (h : Reachable s) :
    ∀ p, checkersOnPoints s.board p + barCheckers s.board p + offOf s p = 15 := by
  have hinv := Reachable_stateInv h
  intro p
  have h15 := hinv.2 p
  have hsplit := countOn_split s.board p hinv.1.1
  have hbars := hinv.1.2.2
  cases p with
  | white =>
    have h25 : contrib (bgetI s.board 25) Player.white = 0 := by
      cases h25b : bgetI s.board 25 with
      | none => rfl
      | some cs => simp [contrib, hbars.2 cs h25b]
    unfold barCheckers
    rw [getCheckerCount_eq_contrib]
    have hbp : getBarPoint Player.white = 0 := rfl
    rw [hbp]
    omega
  | black =>
    have h0 : contrib (bgetI s.board 0) Player.black = 0 := by
      cases h0b : bgetI s.board 0 with
      | none => rfl
      | some cs => simp [contrib, hbars.1 cs h0b]
    unfold barCheckers
    rw [getCheckerCount_eq_contrib]
    have hbp : getBarPoint Player.black = 25 := rfl
    rw [hbp]
    omega

/-- Concrete check of the conservation law at the freshly created
standard game. -/
theorem claim_C1_witness :
    checkersOnPoints initialStandardGame.board .white +
      barCheckers initialStandardGame.board .white +
      offOf initialStandardGame .white = 15 :=
  claim_C1_checker_conservation
    (Reachable.created ⟨.standard, none⟩ initialStandardGame rfl) .white

end BG
